/-
Verification of the WordleChampion core against its specification.

The development shallowly embeds the C sources:
  * `entropy_calculator.cpp` : feedback patterns, feedback indices, entropy
  * `comparators.cpp`        : the qsort comparators and their tie-break chains
  * `solver_logic.cpp`       : filters, the lookahead scorer, the hybrid
                               strategy engine and the dictionary filter

Modelling conventions:
  * A word is a function `Fin 5 → Fin 26` (five uppercase letters).
  * C `double` values are modelled as exact rationals `ℚ`; every double the
    program manipulates is a rational, and the arithmetic it performs on them
    (`+`, `*`, `/`, comparisons) is modelled exactly.
  * The library functions `log` and `log10` are taken as parameters
    `(flog : ℚ → ℚ)` of the embedded definitions: the floating-point `log`
    is some function from doubles to doubles, and every theorem below is
    proved for an arbitrary such function, hence in particular for it.
  * C early-return loops become structural recursions; loops whose result is
    a pure aggregate of the scanned data (histograms, "seen" arrays) are
    written as the corresponding counting functions over the same data.
-/
import Mathlib

set_option maxHeartbeats 1000000

namespace WordleChampion

/-- A five-letter word over the uppercase alphabet, `0 = A`, …, `25 = Z`. -/
abbrev Word := Fin 5 → Fin 26

/-- One position of a feedback pattern: Black, Yellow or Green
(`'B'`/`'Y'`/`'G'` in `get_feedback_pattern`). -/
inductive Color where
  | B : Color
  | Y : Color
  | G : Color
deriving DecidableEq, Repr

/-- Numeric value of a feedback colour as used by `compute_feedback_index`:
Black = 0, Yellow = 1, Green = 2. -/
def colorVal : Color → ℕ
  | Color.B => 0
  | Color.Y => 1
  | Color.G => 2

/-- First pass of the two-pass feedback algorithm
(`entropy_calculator.cpp`, `get_feedback_pattern` pass 1): for every
position that is not an exact match, count the answer's letter.  The
resulting tally `answer_char_counts` maps each letter to the number of its
occurrences in the answer that were not consumed by a Green. -/
def answer_char_counts (guess answer : Word) : Fin 26 → ℕ := fun c =>
  (List.finRange 5).countP fun i => !(guess i == answer i) && (answer i == c)

/-- Second pass of `get_feedback_pattern`: walk the positions in order; an
exact match was already marked Green in pass 1 (recomputed here as
`guess i = answer i`); otherwise mark Yellow and consume one tallied
occurrence if the guessed letter is still available, else Black. -/
def feedback_pass2 (guess answer : Word) :
    List (Fin 5) → (Fin 26 → ℕ) → List Color
  | [], _ => []
  | i :: rest, counts =>
    if guess i = answer i then
      Color.G :: feedback_pass2 guess answer rest counts
    else if 0 < counts (guess i) then
      Color.Y :: feedback_pass2 guess answer rest
        (Function.update counts (guess i) (counts (guess i) - 1))
    else
      Color.B :: feedback_pass2 guess answer rest counts

/-- `get_feedback_pattern` of `entropy_calculator.cpp`: the per-position
Green/Yellow/Black classification of `guess` against `answer`. -/
def get_feedback_pattern (guess answer : Word) : List Color :=
  feedback_pass2 guess answer (List.finRange 5) (answer_char_counts guess answer)

/-- The two passes of `compute_feedback_index`
(`entropy_calculator.cpp`): identical branching to `feedback_pass2`, but
producing the numeric states 2 (Green), 1 (Yellow), 0 (Black). -/
def index_pass2 (guess answer : Word) :
    List (Fin 5) → (Fin 26 → ℕ) → List ℕ
  | [], _ => []
  | i :: rest, counts =>
    if guess i = answer i then
      2 :: index_pass2 guess answer rest counts
    else if 0 < counts (guess i) then
      1 :: index_pass2 guess answer rest
        (Function.update counts (guess i) (counts (guess i) - 1))
    else
      0 :: index_pass2 guess answer rest counts

/-- The final loop of `compute_feedback_index`:
`index += states[i] * multiplier; multiplier *= 3`. -/
def encode_states : List ℕ → ℕ → ℕ
  | [], _ => 0
  | s :: rest, mult => s * mult + encode_states rest (mult * 3)

/-- `compute_feedback_index` of `entropy_calculator.cpp`: the base-3 integer
encoding of the feedback pattern, position 0 least significant. -/
def compute_feedback_index (guess answer : Word) : ℕ :=
  encode_states (index_pass2 guess answer (List.finRange 5)
    (answer_char_counts guess answer)) 1

/-- Pass 1 of `lookahead_feedback_index` (`solver_logic.cpp`): the same
tally of unmatched answer letters as in `compute_feedback_index`. -/
def lookahead_char_counts (guess answer : Word) : Fin 26 → ℕ := fun c =>
  (List.finRange 5).countP fun i => !(guess i == answer i) && (answer i == c)

/-- Pass 2 of `lookahead_feedback_index` (`solver_logic.cpp`), producing the
numeric states, same algorithm as `index_pass2` re-implemented there. -/
def lookahead_pass2 (guess answer : Word) :
    List (Fin 5) → (Fin 26 → ℕ) → List ℕ
  | [], _ => []
  | i :: rest, counts =>
    if guess i = answer i then
      2 :: lookahead_pass2 guess answer rest counts
    else if 0 < counts (guess i) then
      1 :: lookahead_pass2 guess answer rest
        (Function.update counts (guess i) (counts (guess i) - 1))
    else
      0 :: lookahead_pass2 guess answer rest counts

/-- Encoding loop of `lookahead_feedback_index`:
`index += states[i] * multiplier; multiplier *= 3`. -/
def lookahead_encode : List ℕ → ℕ → ℕ
  | [], _ => 0
  | s :: rest, mult => s * mult + lookahead_encode rest (mult * 3)

/-- `lookahead_feedback_index` of `solver_logic.cpp`: the fast integer
feedback encoder used inside the lookahead simulation. -/
def lookahead_feedback_index (guess answer : Word) : ℕ :=
  lookahead_encode (lookahead_pass2 guess answer (List.finRange 5)
    (lookahead_char_counts guess answer)) 1

-- Letters used by concrete test words.
def ltrA : Fin 26 := 0
def ltrB : Fin 26 := 1
def ltrD : Fin 26 := 3
def ltrE : Fin 26 := 4
def ltrI : Fin 26 := 8
def ltrP : Fin 26 := 15
def ltrS : Fin 26 := 18

/-- The word "SPEED". -/
def wSPEED : Word := ![ltrS, ltrP, ltrE, ltrE, ltrD]

/-- The word "ABIDE". -/
def wABIDE : Word := ![ltrA, ltrB, ltrI, ltrD, ltrE]

/-- The Yellow positions produced for a letter never exceed the available
tally: walking `feedback_pass2` from any tally, the number of positions
marked Yellow whose guessed letter is `c` is at most `counts c`. -/
lemma yellow_count_le (g a : Word) (c : Fin 26) :
    ∀ (l : List (Fin 5)) (counts : Fin 26 → ℕ),
      (l.zip (feedback_pass2 g a l counts)).countP
        (fun p => p.2 == Color.Y && g p.1 == c) ≤ counts c := by
  intro l
  induction l with
  | nil => intro counts; simp [feedback_pass2]
  | cons i rest ih =>
    intro counts
    simp only [feedback_pass2]
    split_ifs with hg hy
    · simpa using ih counts
    · by_cases hc : g i = c
      · subst hc
        have h1 := ih (Function.update counts (g i) (counts (g i) - 1))
        rw [Function.update_same] at h1
        simp [List.zip_cons_cons, List.countP_cons]
        omega
      · have h1 := ih (Function.update counts (g i) (counts (g i) - 1))
        rw [Function.update_noteq (Ne.symm hc)] at h1
        simp only [List.zip_cons_cons, List.countP_cons]
        simpa [hc] using h1
    · simpa using ih counts

/-- CLAIM C4 — for every guess and answer of five uppercase letters and
every letter `c`, the number of positions `get_feedback_pattern` marks
Yellow with guessed letter `c` is at most the number of occurrences of `c`
in the answer that are not matched Green; and guess "SPEED" against answer
"ABIDE" yields exactly one Yellow position for the letter E. -/
theorem yellow_limited_by_unmatched_occurrences :
    (∀ (g a : Word) (c : Fin 26),
      ((List.finRange 5).zip (get_feedback_pattern g a)).countP
        (fun p => p.2 == Color.Y && g p.1 == c) ≤ answer_char_counts g a c) ∧
    ((List.finRange 5).zip (get_feedback_pattern wSPEED wABIDE)).countP
      (fun p => p.2 == Color.Y && wSPEED p.1 == ltrE) = 1 := by
  constructor
  · intro g a c
    exact yellow_count_le g a c (List.finRange 5) (answer_char_counts g a)
  · decide

/-- The numeric states of `compute_feedback_index` are the colours of
`get_feedback_pattern` under `colorVal`. -/
lemma index_pass2_eq_map (g a : Word) :
    ∀ (l : List (Fin 5)) (counts : Fin 26 → ℕ),
      index_pass2 g a l counts = (feedback_pass2 g a l counts).map colorVal := by
  intro l
  induction l with
  | nil => intro counts; simp [index_pass2, feedback_pass2]
  | cons i rest ih =>
    intro counts
    simp only [index_pass2, feedback_pass2]
    split_ifs <;> simp [List.map_cons, colorVal, ih]

/-- `lookahead_pass2` recomputes exactly the states of `index_pass2`. -/
lemma lookahead_pass2_eq (g a : Word) :
    ∀ (l : List (Fin 5)) (counts : Fin 26 → ℕ),
      lookahead_pass2 g a l counts = index_pass2 g a l counts := by
  intro l
  induction l with
  | nil => intro counts; simp [lookahead_pass2, index_pass2]
  | cons i rest ih =>
    intro counts
    simp only [lookahead_pass2, index_pass2]
    split_ifs <;> simp [ih]

/-- The two base-3 encoding loops are the same function. -/
lemma lookahead_encode_eq : ∀ (l : List ℕ) (m : ℕ),
    lookahead_encode l m = encode_states l m := by
  intro l
  induction l with
  | nil => intro m; simp [lookahead_encode, encode_states]
  | cons s rest ih => intro m; simp [lookahead_encode, encode_states, ih]

/-- Every state produced by `index_pass2` is at most 2. -/
lemma index_pass2_le_two (g a : Word) :
    ∀ (l : List (Fin 5)) (counts : Fin 26 → ℕ),
      ∀ s ∈ index_pass2 g a l counts, s ≤ 2 := by
  intro l
  induction l with
  | nil => intro counts; simp [index_pass2]
  | cons i rest ih =>
    intro counts
    simp only [index_pass2]
    split_ifs <;> intro s hs <;> rcases List.mem_cons.mp hs with h | h <;>
      first
        | omega
        | exact ih _ s h

/-- `index_pass2` yields one state per scanned position. -/
lemma index_pass2_length (g a : Word) :
    ∀ (l : List (Fin 5)) (counts : Fin 26 → ℕ),
      (index_pass2 g a l counts).length = l.length := by
  intro l
  induction l with
  | nil => intro counts; simp [index_pass2]
  | cons i rest ih =>
    intro counts
    simp only [index_pass2]
    split_ifs <;> simp [ih]

/-- The encoding loop is bounded by `m * (3 ^ length − 1)` when every
digit is at most 2. -/
lemma encode_states_le :
    ∀ (l : List ℕ), (∀ s ∈ l, s ≤ 2) →
      ∀ m : ℕ, encode_states l m ≤ m * (3 ^ l.length - 1) := by
  intro l
  induction l with
  | nil => intro _ m; simp [encode_states]
  | cons s rest ih =>
    intro h m
    have hs : s ≤ 2 := h s (List.mem_cons_self _ _)
    have hr := ih (fun x hx => h x (List.mem_cons_of_mem _ hx)) (m * 3)
    have hpow : 1 ≤ 3 ^ rest.length := Nat.one_le_pow _ _ (by omega)
    obtain ⟨k, hk⟩ : ∃ k, 3 ^ rest.length = k + 1 := ⟨3 ^ rest.length - 1, by omega⟩
    simp only [encode_states, List.length_cons, pow_succ, hk] at hr ⊢
    have h2 : (k + 1) * 3 - 1 = 3 * k + 2 := by omega
    have h3 : k + 1 - 1 = k := by omega
    rw [h2]
    rw [h3] at hr
    nlinarith [hr, Nat.mul_le_mul_right m hs]

/-- The encoding loop computes the base-3 positional sum of its digits. -/
lemma encode_states_sum :
    ∀ (l : List ℕ) (m : ℕ),
      encode_states l m = m * ∑ i ∈ Finset.range l.length, l.getD i 0 * 3 ^ i := by
  intro l
  induction l with
  | nil => intro m; simp [encode_states]
  | cons s rest ih =>
    intro m
    rw [encode_states, ih (m * 3), List.length_cons, Finset.sum_range_succ']
    simp only [List.getD_cons_succ, List.getD_cons_zero, pow_succ, pow_zero, one_mul]
    have h1 : m * 3 * ∑ i ∈ Finset.range rest.length, rest.getD i 0 * 3 ^ i
        = m * ∑ i ∈ Finset.range rest.length, rest.getD i 0 * (3 ^ i * 3) := by
      rw [Finset.mul_sum, Finset.mul_sum]
      exact Finset.sum_congr rfl fun x _ => by ring
    rw [h1, mul_add]
    ring

/-- Digit extraction commutes with mapping `colorVal` (the default digit 0
is `colorVal Color.B`). -/
lemma getD_map_colorVal (pat : List Color) (i : ℕ) :
    (pat.map colorVal).getD i 0 = colorVal (pat.getD i Color.B) := by
  rw [List.getD_eq_getElem?_getD, List.getD_eq_getElem?_getD, List.getElem?_map]
  cases pat[i]? <;> simp [colorVal]

/-- CLAIM C5 — `compute_feedback_index` always lies in `[0, 242]` and
equals the base-3 positional encoding of `get_feedback_pattern` (Black = 0,
Yellow = 1, Green = 2, position 0 least significant), and
`lookahead_feedback_index` computes the same value. -/
theorem feedback_index_encodes_pattern (g a : Word) :
    compute_feedback_index g a ≤ 242 ∧
    compute_feedback_index g a =
      ∑ i ∈ Finset.range 5,
        colorVal ((get_feedback_pattern g a).getD i Color.B) * 3 ^ i ∧
    lookahead_feedback_index g a = compute_feedback_index g a := by
  refine ⟨?_, ?_, ?_⟩
  · have h := encode_states_le
      (index_pass2 g a (List.finRange 5) (answer_char_counts g a))
      (index_pass2_le_two g a _ _) 1
    rw [index_pass2_length] at h
    simpa [compute_feedback_index, List.length_finRange] using h
  · rw [compute_feedback_index, encode_states_sum, index_pass2_eq_map,
      get_feedback_pattern]
    have hlen : ((feedback_pass2 g a (List.finRange 5)
        (answer_char_counts g a)).map colorVal).length = 5 := by
      rw [← index_pass2_eq_map, index_pass2_length, List.length_finRange]
    rw [hlen, one_mul]
    exact Finset.sum_congr rfl fun i _ => by rw [getD_map_colorVal]
  · rw [lookahead_feedback_index, compute_feedback_index, lookahead_encode_eq,
      lookahead_pass2_eq]
    rfl

/-- `dictionary_entry_t` of `wordle_types.h`.  The C `double entropy` is
modelled as an exact rational. -/
structure dictionary_entry_t where
  word : Word
  entropy : ℚ
  frequency_rank : ℤ
  noun_type : Char
  verb_type : Char
  contains_duplicate_letters : Bool
  is_eliminated : Bool
deriving DecidableEq

/-- A default entry, used only as the `List.getD` fallback when stating
theorems about in-bounds indices. -/
def dummy_entry : dictionary_entry_t :=
  { word := fun _ => 0, entropy := 0, frequency_rank := 0, noun_type := 'N',
    verb_type := 'N', contains_duplicate_letters := false, is_eliminated := false }

/-- `HybridConfig` of `hybrid_strategies.h`. -/
structure HybridConfig where
  name : String
  base_strategy_index : ℤ
  use_linguistic_filter : Bool
  linguistic_filter_start_turn : ℤ
  use_risk_filter : Bool
  prioritize_new_vowels : Bool
  prioritize_anchors : Bool
  prioritize_vowel_contingency : Bool
  look_ahead_depth : ℤ
  rank_priority_tolerance : ℚ
  opener_override_word : Option Word
  use_heatmap_priority : Bool
  second_opener_override_word : Option Word
  prioritize_turn2_coverage : Bool
deriving DecidableEq

/-- `calculate_entropy_internal` of `entropy_calculator.cpp`.  `flog` is the
C library `log`; `LOG2_E = 1.44269504089` is the rational constant the code
multiplies by.  The 243-bucket histogram built by the first loop is the
pattern count of each index over the answer list; the second loop adds
`-p * log p` for every nonempty bucket. -/
def calculate_entropy_internal (flog : ℚ → ℚ) (guess : Word)
    (ppValidAnswers : List dictionary_entry_t) : ℚ :=
  if ppValidAnswers.length ≤ 1 then 0
  else
    let counts : ℕ → ℕ := fun idx =>
      ppValidAnswers.countP fun e => compute_feedback_index guess e.word == idx
    let inv_num : ℚ := 1 / (ppValidAnswers.length : ℚ)
    let entropy : ℚ :=
      ((List.range 243).map fun idx =>
        if 0 < counts idx then
          -(((counts idx : ℚ) * inv_num) * flog ((counts idx : ℚ) * inv_num))
        else 0).sum
    entropy * (1.44269504089 : ℚ)

/-- `calculate_entropy_on_dictionary` of `entropy_calculator.cpp`: build the
list of non-eliminated entries; if it is empty return the pool unchanged
(the early `return`); otherwise set every eliminated entry's entropy to 0
and every valid entry's entropy to its entropy against the valid list.
The C parallel loop writes only the `entropy` field of its own entry and
reads only the immutable `word` fields through `ppValid`, so it is modelled
as a map over the pool with the valid list taken from the original pool. -/
def calculate_entropy_on_dictionary (flog : ℚ → ℚ)
    (pDictionary : List dictionary_entry_t) : List dictionary_entry_t :=
  let ppValid := pDictionary.filter fun e => !e.is_eliminated
  if ppValid.length = 0 then pDictionary
  else
    pDictionary.map fun e =>
      if e.is_eliminated then { e with entropy := 0 }
      else { e with entropy := calculate_entropy_internal flog e.word ppValid }

/-- `filter_dictionary_by_constraints` of `solver_logic.cpp`: each
non-eliminated entry whose hypothetical pattern differs from the actual
pattern is marked eliminated; entries are processed independently. -/
def filter_dictionary_by_constraints (p_dictionary : List dictionary_entry_t)
    (guess : Word) (result_pattern : List Color) : List dictionary_entry_t :=
  p_dictionary.map fun e =>
    if e.is_eliminated then e
    else if get_feedback_pattern guess e.word = result_pattern then e
    else { e with is_eliminated := true }

-- Concrete entries used by witnesses and counterexamples.

/-- A valid (non-eliminated) entry with duplicate letters. -/
def entrySPEED : dictionary_entry_t :=
  { word := wSPEED, entropy := 2, frequency_rank := 50, noun_type := 'N',
    verb_type := 'N', contains_duplicate_letters := true, is_eliminated := false }

/-- A valid entry with five distinct letters. -/
def entryABIDE : dictionary_entry_t :=
  { word := wABIDE, entropy := 1, frequency_rank := 60, noun_type := 'S',
    verb_type := 'N', contains_duplicate_letters := false, is_eliminated := false }

/-- An eliminated entry with a nonzero stored entropy. -/
def entryElim : dictionary_entry_t :=
  { word := wSPEED, entropy := 1, frequency_rank := 10, noun_type := 'N',
    verb_type := 'N', contains_duplicate_letters := true, is_eliminated := true }

/-- Indexing a mapped list inside the bounds evaluates the function at the
original element. -/
lemma getD_map_of_lt {α β : Type*} (f : α → β) (l : List α) (i : ℕ)
    (h : i < l.length) (d : β) (d' : α) :
    (l.map f).getD i d = f (l.getD i d') := by
  simp [List.getD_eq_getElem?_getD, List.getElem?_map, List.getElem?_eq_getElem, h]

/-- CLAIM C3 — `filter_dictionary_by_constraints` marks as eliminated
exactly the previously non-eliminated entries whose computed feedback
differs from the actual feedback, never clears an elimination flag, and
leaves every other field of every entry unchanged. -/
theorem filter_marks_exactly_mismatches (pool : List dictionary_entry_t)
    (guess : Word) (result_pattern : List Color) (i : ℕ) (h : i < pool.length) :
    (filter_dictionary_by_constraints pool guess result_pattern).length = pool.length ∧
    (((filter_dictionary_by_constraints pool guess result_pattern).getD i
        dummy_entry).is_eliminated
      ↔ ((pool.getD i dummy_entry).is_eliminated ∨
          get_feedback_pattern guess (pool.getD i dummy_entry).word ≠ result_pattern)) ∧
    ((filter_dictionary_by_constraints pool guess result_pattern).getD i
        dummy_entry).word = (pool.getD i dummy_entry).word ∧
    ((filter_dictionary_by_constraints pool guess result_pattern).getD i
        dummy_entry).entropy = (pool.getD i dummy_entry).entropy ∧
    ((filter_dictionary_by_constraints pool guess result_pattern).getD i
        dummy_entry).frequency_rank = (pool.getD i dummy_entry).frequency_rank ∧
    ((filter_dictionary_by_constraints pool guess result_pattern).getD i
        dummy_entry).noun_type = (pool.getD i dummy_entry).noun_type ∧
    ((filter_dictionary_by_constraints pool guess result_pattern).getD i
        dummy_entry).verb_type = (pool.getD i dummy_entry).verb_type ∧
    ((filter_dictionary_by_constraints pool guess result_pattern).getD i
        dummy_entry).contains_duplicate_letters
      = (pool.getD i dummy_entry).contains_duplicate_letters := by
  unfold filter_dictionary_by_constraints
  rw [getD_map_of_lt _ _ _ h _ dummy_entry]
  refine ⟨by simp, ?_⟩
  set e := pool.getD i dummy_entry with he
  by_cases h1 : e.is_eliminated <;> by_cases h2 : get_feedback_pattern guess e.word = result_pattern <;>
    simp [h1, h2]

/-- CLAIM C10 — filtering on the feedback pattern actually produced for a
non-eliminated entry's own word never eliminates that entry. -/
theorem own_feedback_never_eliminates (pool : List dictionary_entry_t)
    (guess : Word) (i : ℕ) (h : i < pool.length)
    (hvalid : (pool.getD i dummy_entry).is_eliminated = false) :
    ((filter_dictionary_by_constraints pool guess
        (get_feedback_pattern guess (pool.getD i dummy_entry).word)).getD i
        dummy_entry).is_eliminated = false := by
  unfold filter_dictionary_by_constraints
  rw [getD_map_of_lt _ _ _ h _ dummy_entry]
  set e := pool.getD i dummy_entry with he
  simp [hvalid]

/-- CLAIM C10 witness: a concrete two-entry pool filtered on the first
entry's own feedback keeps that entry. -/
theorem own_feedback_never_eliminates_witness :
    (0 < ([entrySPEED, entryABIDE] : List dictionary_entry_t).length) ∧
    (([entrySPEED, entryABIDE].getD 0 dummy_entry).is_eliminated = false) ∧
    ((filter_dictionary_by_constraints [entrySPEED, entryABIDE] wSPEED
        (get_feedback_pattern wSPEED
          ([entrySPEED, entryABIDE].getD 0 dummy_entry).word)).getD 0
        dummy_entry).is_eliminated = false :=
  ⟨by decide, by decide,
    own_feedback_never_eliminates [entrySPEED, entryABIDE] wSPEED 0
      (by decide) (by decide)⟩

/-- CLAIM C3 witness: the theorem applied to a concrete pool and index. -/
theorem filter_marks_exactly_mismatches_witness :
    (0 < ([entrySPEED, entryABIDE] : List dictionary_entry_t).length) ∧
    ((filter_dictionary_by_constraints [entrySPEED, entryABIDE] wSPEED []).length
        = ([entrySPEED, entryABIDE] : List dictionary_entry_t).length ∧
      (((filter_dictionary_by_constraints [entrySPEED, entryABIDE] wSPEED []).getD 0
          dummy_entry).is_eliminated
        ↔ ((([entrySPEED, entryABIDE] : List dictionary_entry_t).getD 0
              dummy_entry).is_eliminated ∨
            get_feedback_pattern wSPEED
              ((([entrySPEED, entryABIDE] : List dictionary_entry_t).getD 0
                dummy_entry)).word ≠ [])) ∧
      ((filter_dictionary_by_constraints [entrySPEED, entryABIDE] wSPEED []).getD 0
          dummy_entry).word
        = (([entrySPEED, entryABIDE] : List dictionary_entry_t).getD 0 dummy_entry).word ∧
      ((filter_dictionary_by_constraints [entrySPEED, entryABIDE] wSPEED []).getD 0
          dummy_entry).entropy
        = (([entrySPEED, entryABIDE] : List dictionary_entry_t).getD 0 dummy_entry).entropy ∧
      ((filter_dictionary_by_constraints [entrySPEED, entryABIDE] wSPEED []).getD 0
          dummy_entry).frequency_rank
        = (([entrySPEED, entryABIDE] : List dictionary_entry_t).getD 0
            dummy_entry).frequency_rank ∧
      ((filter_dictionary_by_constraints [entrySPEED, entryABIDE] wSPEED []).getD 0
          dummy_entry).noun_type
        = (([entrySPEED, entryABIDE] : List dictionary_entry_t).getD 0 dummy_entry).noun_type ∧
      ((filter_dictionary_by_constraints [entrySPEED, entryABIDE] wSPEED []).getD 0
          dummy_entry).verb_type
        = (([entrySPEED, entryABIDE] : List dictionary_entry_t).getD 0 dummy_entry).verb_type ∧
      ((filter_dictionary_by_constraints [entrySPEED, entryABIDE] wSPEED []).getD 0
          dummy_entry).contains_duplicate_letters
        = (([entrySPEED, entryABIDE] : List dictionary_entry_t).getD 0
            dummy_entry).contains_duplicate_letters) :=
  ⟨by decide, filter_marks_exactly_mismatches [entrySPEED, entryABIDE] wSPEED [] 0 (by decide)⟩

/-- CLAIM C8 — `calculate_entropy_internal` returns 0 on answer sets of
size 0 or 1, and its value is invariant under any permutation of the answer
set; both hold for every choice of the library `log` function. -/
theorem entropy_zero_and_perm_invariant (flog : ℚ → ℚ) (guess : Word) :
    (∀ answers : List dictionary_entry_t, answers.length ≤ 1 →
      calculate_entropy_internal flog guess answers = 0) ∧
    (∀ l1 l2 : List dictionary_entry_t, l1.Perm l2 →
      calculate_entropy_internal flog guess l1
        = calculate_entropy_internal flog guess l2) := by
  constructor
  · intro answers h
    simp [calculate_entropy_internal, h]
  · intro l1 l2 hp
    unfold calculate_entropy_internal
    rw [hp.length_eq]
    simp only [hp.countP_eq]

/-- CLAIM C8 witness: concrete permuted two-entry answer sets give equal
entropy, and a singleton answer set gives 0. -/
theorem entropy_zero_and_perm_invariant_witness :
    ([entrySPEED, entryABIDE] : List dictionary_entry_t).Perm [entryABIDE, entrySPEED] ∧
    calculate_entropy_internal (fun _ => 0) wSPEED [entrySPEED, entryABIDE]
      = calculate_entropy_internal (fun _ => 0) wSPEED [entryABIDE, entrySPEED] ∧
    ([entrySPEED] : List dictionary_entry_t).length ≤ 1 ∧
    calculate_entropy_internal (fun _ => 0) wSPEED [entrySPEED] = 0 :=
  ⟨List.Perm.swap entryABIDE entrySPEED [],
    (entropy_zero_and_perm_invariant (fun _ => 0) wSPEED).2 _ _
      (List.Perm.swap entryABIDE entrySPEED []),
    by decide,
    (entropy_zero_and_perm_invariant (fun _ => 0) wSPEED).1 [entrySPEED] (by decide)⟩

/-- CLAIM C6 counterexample — on a pool whose entries are all eliminated,
`calculate_entropy_on_dictionary` returns early and an eliminated entry
keeps its nonzero entropy, contradicting the claim that every eliminated
entry's entropy field equals 0 after the run. -/
theorem batch_recompute_all_eliminated_counterexample :
    (([entryElim] : List dictionary_entry_t).getD 0 dummy_entry).is_eliminated = true ∧
    ¬ (((calculate_entropy_on_dictionary (fun _ => 0) [entryElim]).getD 0
        dummy_entry).entropy = 0) := by
  constructor
  · decide
  · decide

/-- CLAIM C6 (amended) — if the pool contains at least one non-eliminated
entry, then after `calculate_entropy_on_dictionary` every eliminated
entry's entropy is 0, every non-eliminated entry's entropy equals the
entropy of its word against the list of non-eliminated entries, and all
other fields are unchanged. -/
theorem batch_recompute_entropy (flog : ℚ → ℚ)
    (pool : List dictionary_entry_t)
    (hvalid : ∃ e ∈ pool, e.is_eliminated = false)
    (i : ℕ) (h : i < pool.length) :
    (calculate_entropy_on_dictionary flog pool).length = pool.length ∧
    ((pool.getD i dummy_entry).is_eliminated = true →
      ((calculate_entropy_on_dictionary flog pool).getD i dummy_entry).entropy = 0) ∧
    ((pool.getD i dummy_entry).is_eliminated = false →
      ((calculate_entropy_on_dictionary flog pool).getD i dummy_entry).entropy
        = calculate_entropy_internal flog (pool.getD i dummy_entry).word
            (pool.filter fun e => !e.is_eliminated)) ∧
    ((calculate_entropy_on_dictionary flog pool).getD i dummy_entry).word
      = (pool.getD i dummy_entry).word ∧
    ((calculate_entropy_on_dictionary flog pool).getD i dummy_entry).is_eliminated
      = (pool.getD i dummy_entry).is_eliminated ∧
    ((calculate_entropy_on_dictionary flog pool).getD i dummy_entry).frequency_rank
      = (pool.getD i dummy_entry).frequency_rank := by
  have hne : ¬ ((pool.filter fun e => !e.is_eliminated).length = 0) := by
    obtain ⟨e, he, helim⟩ := hvalid
    have : e ∈ pool.filter fun e => !e.is_eliminated :=
      List.mem_filter.mpr ⟨he, by simp [helim]⟩
    intro hlen
    rw [List.length_eq_zero] at hlen
    simp [hlen] at this
  unfold calculate_entropy_on_dictionary
  simp only [hne, if_false]
  rw [getD_map_of_lt _ _ _ h _ dummy_entry]
  set e := pool.getD i dummy_entry with he
  by_cases h1 : e.is_eliminated <;> simp [h1]

/-- CLAIM C6 witness: the amended theorem applied to a concrete pool with
one valid and one eliminated entry. -/
theorem batch_recompute_entropy_witness :
    (∃ e ∈ ([entryABIDE, entryElim] : List dictionary_entry_t),
      e.is_eliminated = false) ∧
    (1 < ([entryABIDE, entryElim] : List dictionary_entry_t).length) ∧
    ((calculate_entropy_on_dictionary (fun _ => 0) [entryABIDE, entryElim]).length
        = ([entryABIDE, entryElim] : List dictionary_entry_t).length ∧
      ((([entryABIDE, entryElim] : List dictionary_entry_t).getD 1
          dummy_entry).is_eliminated = true →
        ((calculate_entropy_on_dictionary (fun _ => 0)
            [entryABIDE, entryElim]).getD 1 dummy_entry).entropy = 0) ∧
      ((([entryABIDE, entryElim] : List dictionary_entry_t).getD 1
          dummy_entry).is_eliminated = false →
        ((calculate_entropy_on_dictionary (fun _ => 0)
            [entryABIDE, entryElim]).getD 1 dummy_entry).entropy
          = calculate_entropy_internal (fun _ => 0)
              ((([entryABIDE, entryElim] : List dictionary_entry_t).getD 1
                dummy_entry)).word
              (([entryABIDE, entryElim] : List dictionary_entry_t).filter
                fun e => !e.is_eliminated)) ∧
      ((calculate_entropy_on_dictionary (fun _ => 0)
          [entryABIDE, entryElim]).getD 1 dummy_entry).word
        = (([entryABIDE, entryElim] : List dictionary_entry_t).getD 1 dummy_entry).word ∧
      ((calculate_entropy_on_dictionary (fun _ => 0)
          [entryABIDE, entryElim]).getD 1 dummy_entry).is_eliminated
        = (([entryABIDE, entryElim] : List dictionary_entry_t).getD 1
            dummy_entry).is_eliminated ∧
      ((calculate_entropy_on_dictionary (fun _ => 0)
          [entryABIDE, entryElim]).getD 1 dummy_entry).frequency_rank
        = (([entryABIDE, entryElim] : List dictionary_entry_t).getD 1
            dummy_entry).frequency_rank) :=
  ⟨⟨entryABIDE, by decide⟩, by decide,
    batch_recompute_entropy (fun _ => 0) [entryABIDE, entryElim]
      ⟨entryABIDE, by decide⟩ 1 (by decide)⟩

-- Comparators of `comparators.cpp`.

/-- Noun preference position from `noun_type_diff`: the loop over the
order array `{'R','S','N','P'}` leaves position 4 for unknown tags, else
the matching index. -/
def noun_order_pos (c : Char) : ℕ := (['R', 'S', 'N', 'P'] : List Char).indexOf c

/-- Verb preference position from `verb_type_diff`, order `{'N','P','S','T'}`. -/
def verb_order_pos (c : Char) : ℕ := (['N', 'P', 'S', 'T'] : List Char).indexOf c

/-- `noun_type_diff`: `posA - posB`. -/
def noun_type_diff (e1 e2 : dictionary_entry_t) : ℤ :=
  (noun_order_pos e1.noun_type : ℤ) - (noun_order_pos e2.noun_type : ℤ)

/-- `verb_type_diff`: `posA - posB`. -/
def verb_type_diff (e1 e2 : dictionary_entry_t) : ℤ :=
  (verb_order_pos e1.verb_type : ℤ) - (verb_order_pos e2.verb_type : ℤ)

/-- `entropy_diff`: descending comparison of the entropy field. -/
def entropy_diff (e1 e2 : dictionary_entry_t) : ℤ :=
  if e1.entropy < e2.entropy then 1
  else if e2.entropy < e1.entropy then -1
  else 0

/-- `dup_diff`: prefer words without duplicate letters. -/
def dup_diff (e1 e2 : dictionary_entry_t) : ℤ :=
  if e1.contains_duplicate_letters = false ∧ e2.contains_duplicate_letters = true then -1
  else if e2.contains_duplicate_letters = false ∧ e1.contains_duplicate_letters = true then 1
  else 0

/-- `rank_diff`: descending comparison of the frequency rank. -/
def rank_diff (e1 e2 : dictionary_entry_t) : ℤ :=
  if e1.frequency_rank < e2.frequency_rank then 1
  else if e2.frequency_rank < e1.frequency_rank then -1
  else 0

/-- `eliminated_diff`: non-eliminated entries come before eliminated ones. -/
def eliminated_diff (e1 e2 : dictionary_entry_t) : ℤ :=
  if e1.is_eliminated = true ∧ e2.is_eliminated = false then 1
  else if e1.is_eliminated = false ∧ e2.is_eliminated = true then -1
  else 0

/-- The loop of C `strncmp` on five-letter words: scan the positions in
order, return the (signed) character-code difference at the first
mismatch, else 0. -/
def strncmp_aux (w1 w2 : Word) : List (Fin 5) → ℤ
  | [] => 0
  | i :: rest =>
    if w1 i = w2 i then strncmp_aux w1 w2 rest
    else ((w1 i : ℕ) : ℤ) - ((w2 i : ℕ) : ℤ)

/-- `strncmp(entry1->word, entry2->word, WORDLE_WORD_LENGTH)`. -/
def strncmp_word (w1 w2 : Word) : ℤ := strncmp_aux w1 w2 (List.finRange 5)

/-- The C early-return idiom `result = d1(...); if (result != 0) return
result; <continue with d2>` shared by every comparator chain. -/
def cmpChain {α : Type*} (d1 d2 : α → α → ℤ) (x y : α) : ℤ :=
  if d1 x y ≠ 0 then d1 x y else d2 x y

/-- `compare_with_entropy_tie_breaker` of `comparators.cpp`: duplicates,
then noun type, then verb type, then rank, then lexicographic. -/
def compare_with_entropy_tie_breaker : dictionary_entry_t → dictionary_entry_t → ℤ :=
  cmpChain dup_diff (cmpChain noun_type_diff (cmpChain verb_type_diff
    (cmpChain rank_diff fun e1 e2 => strncmp_word e1.word e2.word)))

/-- `compare_dictionary_entries_by_entropy_desc` of `comparators.cpp`:
eliminated state, then entropy descending, then the tie-break chain. -/
def compare_dictionary_entries_by_entropy_desc :
    dictionary_entry_t → dictionary_entry_t → ℤ :=
  cmpChain eliminated_diff (cmpChain entropy_diff compare_with_entropy_tie_breaker)

/-- A comparator `d` realises the strict order of the key `k`: it returns
0 exactly on equal keys and a negative value exactly on increasing keys. -/
def IsCmpFor {α K : Type*} [LinearOrder K] (d : α → α → ℤ) (k : α → K) : Prop :=
  ∀ x y, (d x y = 0 ↔ k x = k y) ∧ (d x y < 0 ↔ k x < k y)

lemma IsCmpFor.pos_iff {α K : Type*} [LinearOrder K] {d : α → α → ℤ}
    {k : α → K} (h : IsCmpFor d k) (x y : α) : 0 < d x y ↔ k y < k x := by
  have h1 := (h x y).1
  have h2 := (h x y).2
  constructor
  · intro hp
    rcases lt_trichotomy (k x) (k y) with hlt | heq | hgt
    · have := h2.mpr hlt; omega
    · have := h1.mpr heq; omega
    · exact hgt
  · intro hgt
    have n1 : ¬ d x y = 0 := fun h0 => absurd (h1.mp h0) (ne_of_gt hgt)
    have n2 : ¬ d x y < 0 := fun hl => absurd (h2.mp hl) (asymm hgt)
    omega

/-- Chaining two key comparators realises the lexicographic product key. -/
lemma isCmpFor_cmpChain {α K1 K2 : Type*} [LinearOrder K1] [LinearOrder K2]
    {d1 d2 : α → α → ℤ} {k1 : α → K1} {k2 : α → K2}
    (h1 : IsCmpFor d1 k1) (h2 : IsCmpFor d2 k2) :
    IsCmpFor (cmpChain d1 d2) (fun x => toLex (k1 x, k2 x)) := by
  intro x y
  unfold cmpChain
  by_cases h0 : d1 x y = 0
  · have hk : k1 x = k1 y := (h1 x y).1.mp h0
    rw [if_neg (by simpa using h0)]
    constructor
    · rw [(h2 x y).1, toLex_inj, Prod.mk.injEq]
      exact ⟨fun hh => ⟨hk, hh⟩, fun hh => hh.2⟩
    · rw [(h2 x y).2, Prod.Lex.lt_iff]
      constructor
      · intro hh
        exact Or.inr ⟨hk, hh⟩
      · rintro (hh | ⟨-, hh⟩)
        · exact absurd hk (ne_of_lt hh)
        · exact hh
  · rw [if_pos (by simpa using h0)]
    have hk : ¬ k1 x = k1 y := fun hh => h0 ((h1 x y).1.mpr hh)
    constructor
    · simp only [h0, false_iff]
      rw [toLex_inj, Prod.mk.injEq]
      exact fun hh => hk hh.1
    · rw [(h1 x y).2, Prod.Lex.lt_iff]
      constructor
      · intro hh
        exact Or.inl hh
      · rintro (hh | ⟨hh, -⟩)
        · exact hh
        · exact absurd hh hk

/-- Precomposition with a projection preserves key realisation. -/
lemma IsCmpFor.comp {α β K : Type*} [LinearOrder K] {d : α → α → ℤ}
    {k : α → K} (h : IsCmpFor d k) (f : β → α) :
    IsCmpFor (fun x y => d (f x) (f y)) (fun x => k (f x)) :=
  fun x y => h (f x) (f y)

/-- The `1 / -1 / 0` Boolean diff pattern of `eliminated_diff`. -/
lemma isCmpFor_boolPosNeg {α : Type*} (f : α → Bool) :
    IsCmpFor (fun x y : α =>
      if f x = true ∧ f y = false then 1
      else if f x = false ∧ f y = true then (-1 : ℤ) else 0) f := by
  intro x y
  cases hx : f x <;> cases hy : f y <;> simp only [hx, hy] <;> decide

/-- The `-1 / 1 / 0` Boolean diff pattern of `dup_diff`. -/
lemma isCmpFor_boolNegPos {α : Type*} (f : α → Bool) :
    IsCmpFor (fun x y : α =>
      if f x = false ∧ f y = true then (-1 : ℤ)
      else if f y = false ∧ f x = true then 1 else 0) f := by
  intro x y
  cases hx : f x <;> cases hy : f y <;> simp only [hx, hy] <;> decide

/-- The descending numeric diff pattern of `entropy_diff`/`rank_diff`. -/
lemma isCmpFor_descOf {α K : Type*} [LinearOrder K] (f : α → K) :
    IsCmpFor (fun x y : α =>
      if f x < f y then 1 else if f y < f x then (-1 : ℤ) else 0)
      (fun x => OrderDual.toDual (f x)) := by
  intro x y
  dsimp only
  have hd : (OrderDual.toDual (f x) = OrderDual.toDual (f y)) ↔ f x = f y := by simp
  have hl : (OrderDual.toDual (f x) < OrderDual.toDual (f y)) ↔ f y < f x := by simp
  split_ifs with h1 h2
  · rw [hd, hl]
    constructor
    · constructor <;> intro hh
      · norm_num at hh
      · exact absurd hh (ne_of_lt h1)
    · constructor <;> intro hh
      · norm_num at hh
      · exact absurd hh (asymm h1)
  · rw [hd, hl]
    constructor
    · constructor <;> intro hh
      · norm_num at hh
      · exact absurd hh.symm (ne_of_lt h2)
    · constructor <;> intro hh
      · exact h2
      · norm_num
  · have heq : f x = f y := le_antisymm (not_lt.mp h2) (not_lt.mp h1)
    rw [hd, hl]
    constructor
    · simp [heq]
    · simp [heq]

/-- The ascending natural-number diff pattern of `noun_type_diff`. -/
lemma isCmpFor_subNat {α : Type*} (f : α → ℕ) :
    IsCmpFor (fun x y : α => (f x : ℤ) - (f y : ℤ)) f := by
  intro x y
  dsimp only
  exact ⟨by omega, by omega⟩

/-- `eliminated_diff` realises the `is_eliminated` key (`false < true`). -/
lemma isCmpFor_eliminated :
    IsCmpFor eliminated_diff fun e => e.is_eliminated :=
  isCmpFor_boolPosNeg _

/-- `dup_diff` realises the `contains_duplicate_letters` key. -/
lemma isCmpFor_dup :
    IsCmpFor dup_diff fun e => e.contains_duplicate_letters :=
  isCmpFor_boolNegPos _

/-- `entropy_diff` realises the order-dual of the entropy field. -/
lemma isCmpFor_entropy :
    IsCmpFor entropy_diff fun e => OrderDual.toDual e.entropy :=
  isCmpFor_descOf _

/-- `rank_diff` realises the order-dual of the frequency rank. -/
lemma isCmpFor_rank :
    IsCmpFor rank_diff fun e => OrderDual.toDual e.frequency_rank :=
  isCmpFor_descOf _

/-- `noun_type_diff` realises the noun preference position. -/
lemma isCmpFor_noun :
    IsCmpFor noun_type_diff fun e => noun_order_pos e.noun_type :=
  isCmpFor_subNat _

/-- `verb_type_diff` realises the verb preference position. -/
lemma isCmpFor_verb :
    IsCmpFor verb_type_diff fun e => verb_order_pos e.verb_type :=
  isCmpFor_subNat _

/-- The signed character difference at one position. -/
def char_diff (i : Fin 5) (w1 w2 : Word) : ℤ :=
  ((w1 i : ℕ) : ℤ) - ((w2 i : ℕ) : ℤ)

lemma isCmpFor_char_diff (i : Fin 5) :
    IsCmpFor (char_diff i) fun w : Word => w i := by
  intro x y
  dsimp only
  unfold char_diff
  constructor
  · rw [← Fin.val_inj]
    omega
  · rw [Fin.lt_def]
    omega

/-- `strncmp` on five-letter words is the chain of the per-position
character diffs. -/
lemma strncmp_word_eq_chain :
    (fun w1 w2 : Word => strncmp_word w1 w2)
      = cmpChain (char_diff 0) (cmpChain (char_diff 1) (cmpChain (char_diff 2)
          (cmpChain (char_diff 3) (char_diff 4)))) := by
  funext w1 w2
  show strncmp_aux w1 w2 (List.finRange 5) = _
  have hfr : (List.finRange 5) = [0, 1, 2, 3, 4] := rfl
  rw [hfr]
  have hz : ∀ i : Fin 5, w1 i = w2 i → ¬ char_diff i w1 w2 ≠ 0 := by
    intro i hi
    simp [char_diff, hi]
  have hnz : ∀ i : Fin 5, ¬ w1 i = w2 i → char_diff i w1 w2 ≠ 0 := by
    intro i hi hc
    exact hi (Fin.val_inj.mp (by unfold char_diff at hc; omega))
  by_cases h0 : w1 0 = w2 0
  · rw [cmpChain, if_neg (hz 0 h0)]
    simp only [strncmp_aux, if_pos h0]
    by_cases h1 : w1 1 = w2 1
    · rw [cmpChain, if_neg (hz 1 h1)]
      simp only [if_pos h1]
      by_cases h2 : w1 2 = w2 2
      · rw [cmpChain, if_neg (hz 2 h2)]
        simp only [if_pos h2]
        by_cases h3 : w1 3 = w2 3
        · rw [cmpChain, if_neg (hz 3 h3)]
          simp only [if_pos h3]
          by_cases h4 : w1 4 = w2 4
          · simp only [if_pos h4]
            simp [char_diff, h4]
          · simp only [if_neg h4]
            rfl
        · rw [cmpChain, if_pos (hnz 3 h3)]
          simp only [if_neg h3]
          rfl
      · rw [cmpChain, if_pos (hnz 2 h2)]
        simp only [if_neg h2]
        rfl
    · rw [cmpChain, if_pos (hnz 1 h1)]
      simp only [if_neg h1]
      rfl
  · rw [cmpChain, if_pos (hnz 0 h0)]
    simp only [strncmp_aux, if_neg h0]
    rfl

/-- The lexicographic key realised by `strncmp` on words. -/
def wordKey (w : Word) : Fin 26 ×ₗ (Fin 26 ×ₗ (Fin 26 ×ₗ (Fin 26 ×ₗ Fin 26))) :=
  toLex (w 0, toLex (w 1, toLex (w 2, toLex (w 3, w 4))))

lemma isCmpFor_strncmp :
    IsCmpFor (fun w1 w2 : Word => strncmp_word w1 w2) wordKey := by
  rw [strncmp_word_eq_chain]
  exact isCmpFor_cmpChain (isCmpFor_char_diff 0)
    (isCmpFor_cmpChain (isCmpFor_char_diff 1)
      (isCmpFor_cmpChain (isCmpFor_char_diff 2)
        (isCmpFor_cmpChain (isCmpFor_char_diff 3) (isCmpFor_char_diff 4))))

/-- The full key realised by `compare_dictionary_entries_by_entropy_desc`:
eliminated state, dual entropy, duplicate flag, noun and verb positions,
dual rank, then the lexicographic word key. -/
def entryKey (e : dictionary_entry_t) :
    Bool ×ₗ (ℚᵒᵈ ×ₗ (Bool ×ₗ (ℕ ×ₗ (ℕ ×ₗ (ℤᵒᵈ ×ₗ
      (Fin 26 ×ₗ (Fin 26 ×ₗ (Fin 26 ×ₗ (Fin 26 ×ₗ Fin 26))))))))) :=
  toLex (e.is_eliminated, toLex (OrderDual.toDual e.entropy,
    toLex (e.contains_duplicate_letters, toLex (noun_order_pos e.noun_type,
      toLex (verb_order_pos e.verb_type, toLex (OrderDual.toDual e.frequency_rank,
        wordKey e.word))))))

lemma isCmpFor_entropy_desc :
    IsCmpFor compare_dictionary_entries_by_entropy_desc entryKey :=
  isCmpFor_cmpChain isCmpFor_eliminated
    (isCmpFor_cmpChain isCmpFor_entropy
      (isCmpFor_cmpChain isCmpFor_dup
        (isCmpFor_cmpChain isCmpFor_noun
          (isCmpFor_cmpChain isCmpFor_verb
            (isCmpFor_cmpChain isCmpFor_rank
              (isCmpFor_strncmp.comp fun e : dictionary_entry_t => e.word))))))

/-- CLAIM C9 — `compare_dictionary_entries_by_entropy_desc` induces a
strict weak ordering: its strict part (`< 0`) is transitive, irreflexive
and asymmetric, incomparability is transitive, and every non-eliminated
entry is ordered strictly before every eliminated entry. -/
theorem entropy_desc_strict_weak_order :
    (∀ e1 e2 e3 : dictionary_entry_t,
      compare_dictionary_entries_by_entropy_desc e1 e2 < 0 →
      compare_dictionary_entries_by_entropy_desc e2 e3 < 0 →
      compare_dictionary_entries_by_entropy_desc e1 e3 < 0) ∧
    (∀ e : dictionary_entry_t,
      compare_dictionary_entries_by_entropy_desc e e = 0) ∧
    (∀ e1 e2 : dictionary_entry_t,
      compare_dictionary_entries_by_entropy_desc e1 e2 < 0 →
      ¬ compare_dictionary_entries_by_entropy_desc e2 e1 < 0) ∧
    (∀ e1 e2 e3 : dictionary_entry_t,
      ¬ compare_dictionary_entries_by_entropy_desc e1 e2 < 0 →
      ¬ compare_dictionary_entries_by_entropy_desc e2 e1 < 0 →
      ¬ compare_dictionary_entries_by_entropy_desc e2 e3 < 0 →
      ¬ compare_dictionary_entries_by_entropy_desc e3 e2 < 0 →
      ¬ compare_dictionary_entries_by_entropy_desc e1 e3 < 0 ∧
      ¬ compare_dictionary_entries_by_entropy_desc e3 e1 < 0) ∧
    (∀ e1 e2 : dictionary_entry_t, e1.is_eliminated = false →
      e2.is_eliminated = true →
      compare_dictionary_entries_by_entropy_desc e1 e2 < 0) := by
  have hC := isCmpFor_entropy_desc
  have hlt : ∀ e1 e2, compare_dictionary_entries_by_entropy_desc e1 e2 < 0
      ↔ entryKey e1 < entryKey e2 := fun e1 e2 => (hC e1 e2).2
  have heq : ∀ e1 e2, compare_dictionary_entries_by_entropy_desc e1 e2 = 0
      ↔ entryKey e1 = entryKey e2 := fun e1 e2 => (hC e1 e2).1
  refine ⟨?_, ?_, ?_, ?_, ?_⟩
  · intro e1 e2 e3 h12 h23
    exact (hlt e1 e3).mpr (lt_trans ((hlt e1 e2).mp h12) ((hlt e2 e3).mp h23))
  · intro e
    exact (heq e e).mpr rfl
  · intro e1 e2 h12 h21
    exact absurd ((hlt e2 e1).mp h21) (asymm ((hlt e1 e2).mp h12))
  · intro e1 e2 e3 h12 h21 h23 h32
    have k12 : entryKey e1 = entryKey e2 :=
      le_antisymm (not_lt.mp fun hh => h21 ((hlt e2 e1).mpr hh))
        (not_lt.mp fun hh => h12 ((hlt e1 e2).mpr hh))
    have k23 : entryKey e2 = entryKey e3 :=
      le_antisymm (not_lt.mp fun hh => h32 ((hlt e3 e2).mpr hh))
        (not_lt.mp fun hh => h23 ((hlt e2 e3).mpr hh))
    constructor
    · intro h13
      exact absurd ((hlt e1 e3).mp h13) (by rw [k12, k23]; exact lt_irrefl _)
    · intro h31
      exact absurd ((hlt e3 e1).mp h31) (by rw [k12, k23]; exact lt_irrefl _)
  · intro e1 e2 h1 h2
    refine (hlt e1 e2).mpr ?_
    have : (e1.is_eliminated < e2.is_eliminated) := by
      rw [h1, h2]
      decide
    unfold entryKey
    rw [Prod.Lex.lt_iff]
    exact Or.inl this

/-- CLAIM C9 witness: the strict-part and eliminated-ordering conclusions
applied at concrete entries (entropy 2 beats entropy 1 beats an eliminated
entry). -/
theorem entropy_desc_strict_weak_order_witness :
    compare_dictionary_entries_by_entropy_desc entrySPEED entryABIDE < 0 ∧
    compare_dictionary_entries_by_entropy_desc entryABIDE entryElim < 0 ∧
    compare_dictionary_entries_by_entropy_desc entrySPEED entryElim < 0 ∧
    entryABIDE.is_eliminated = false ∧ entryElim.is_eliminated = true :=
  ⟨by decide, by decide,
    entropy_desc_strict_weak_order.1 entrySPEED entryABIDE entryElim
      (by decide) (by decide),
    by decide, by decide⟩

-- The lookahead scorer of `solver_logic.cpp`.

/-- `calculate_lookahead_bonus` of `solver_logic.cpp`.  `log10` is the C
library `log10`.  The single analysis loop over the 243 bins computes the
three aggregates `sum_squares`, `singles_count` and `max_bucket`; its
`bins[i] > 0` guard is value-preserving (empty bins contribute 0 to the sum,
are not singles and never raise the maximum), so each aggregate is written
as the corresponding fold over the bin list. -/
def calculate_lookahead_bonus (log10 : ℚ → ℚ) (candidate : dictionary_entry_t)
    (p_rank_sorted : List dictionary_entry_t) (valid_count turn : ℤ) : ℚ :=
  if valid_count ≤ 1 then 0
  else
    let bins : ℕ → ℕ := fun idx =>
      (p_rank_sorted.take valid_count.toNat).countP
        fun e => lookahead_feedback_index candidate.word e.word == idx
    let binList : List ℕ := (List.range 243).map bins
    let sum_squares : ℚ := (binList.map fun b : ℕ => (b : ℚ) * (b : ℚ)).sum
    let singles_count : ℕ := binList.countP fun b => b == 1
    let max_bucket : ℕ := binList.foldr max 0
    let branching_factor : ℚ := ((valid_count : ℚ) * (valid_count : ℚ)) / sum_squares
    let safety_score : ℚ := log10 branching_factor
    let sniper_bonus : ℚ := if 1 < turn then (singles_count : ℚ) * 0.04 else 0
    let total_score : ℚ := safety_score + sniper_bonus
    let guesses_remaining : ℤ := 6 - turn
    if guesses_remaining < (max_bucket : ℤ) then total_score - 100
    else if 4 < valid_count ∧ valid_count / 2 + 1 < (max_bucket : ℤ) then total_score - 5
    else total_score

lemma foldr_max_init (l : List ℕ) : ∀ a : ℕ, l.foldr max a = max (l.foldr max 0) a := by
  induction l with
  | nil => intro a; simp
  | cons b l ih =>
    intro a
    simp only [List.foldr_cons, ih a]
    omega

lemma listRange_map_sum (f : ℕ → ℚ) : ∀ n : ℕ,
    ((List.range n).map f).sum = ∑ i ∈ Finset.range n, f i := by
  intro n
  induction n with
  | zero => simp
  | succ n ih =>
    rw [List.range_succ, Finset.sum_range_succ, List.map_append, List.sum_append, ih]
    simp

lemma listRange_countP (q : ℕ → Bool) : ∀ n : ℕ,
    (List.range n).countP q = ((Finset.range n).filter fun i => q i = true).card := by
  intro n
  induction n with
  | zero => simp
  | succ n ih =>
    rw [List.range_succ, List.countP_append, Finset.range_succ, Finset.filter_insert, ih]
    by_cases hq : q n = true
    · rw [if_pos hq,
        Finset.card_insert_of_not_mem (fun hmem => Finset.not_mem_range_self
          (Finset.mem_of_mem_filter n hmem))]
      simp [List.countP_cons, hq]
    · rw [if_neg hq]
      simp [List.countP_cons, hq]

lemma listRange_foldr_max (f : ℕ → ℕ) : ∀ n : ℕ,
    ((List.range n).map f).foldr max 0 = (Finset.range n).sup f := by
  intro n
  induction n with
  | zero => simp
  | succ n ih =>
    rw [List.range_succ, List.map_append, List.foldr_append, Finset.range_succ,
      Finset.sup_insert]
    rw [foldr_max_init, ih]
    simp only [List.map_cons, List.map_nil, List.foldr_cons, List.foldr_nil]
    omega

/-- CLAIM C7 — for every candidate, answer view, `validAnswerCount > 1` and
turn number (`turn ≥ 1`), `calculate_lookahead_bonus` returns
`safety + sniperBonus` over the 243-bucket feedback histogram, where
`safety = log10(validAnswerCount² / Σ bucketᵢ²)` and `sniperBonus` is 0 on
turn 1 and `0.04 ×` the number of size-1 buckets otherwise — except that it
returns that total minus 100 when the largest bucket exceeds `6 − turn`,
and otherwise minus 5 when `validAnswerCount > 4` and the largest bucket
exceeds `validAnswerCount/2 + 1`.  The result is a pure function of the
inputs, for every choice of the library `log10`. -/
theorem lookahead_bonus_formula (log10 : ℚ → ℚ)
    (candidate : dictionary_entry_t) (view : List dictionary_entry_t)
    (valid_count turn : ℤ) (hv : 1 < valid_count) (ht : 1 ≤ turn) :
    calculate_lookahead_bonus log10 candidate view valid_count turn =
      (let bucket : ℕ → ℕ := fun j =>
        ((view.take valid_count.toNat).map
          fun e => lookahead_feedback_index candidate.word e.word).count j
      let safety : ℚ :=
        log10 ((valid_count : ℚ) ^ 2 / ∑ j ∈ Finset.range 243, (bucket j : ℚ) ^ 2)
      let sniper : ℚ := if turn = 1 then 0
        else 0.04 * (((Finset.range 243).filter fun j => bucket j = 1).card : ℚ)
      let total : ℚ := safety + sniper
      let maxB : ℕ := (Finset.range 243).sup bucket
      if (6 : ℤ) - turn < (maxB : ℤ) then total - 100
      else if 4 < valid_count ∧ valid_count / 2 + 1 < (maxB : ℤ) then total - 5
      else total) := by
  have hbucket : ∀ j : ℕ,
      ((view.take valid_count.toNat).map
        fun e => lookahead_feedback_index candidate.word e.word).count j
      = (view.take valid_count.toNat).countP
          fun e => lookahead_feedback_index candidate.word e.word == j := by
    intro j
    rw [List.count, List.countP_map]
    rfl
  unfold calculate_lookahead_bonus
  rw [if_neg (by omega)]
  simp only [hbucket]
  rw [List.map_map, List.countP_map, listRange_map_sum, listRange_countP,
    listRange_foldr_max]
  set bins : ℕ → ℕ := fun idx =>
    (view.take valid_count.toNat).countP
      fun e => lookahead_feedback_index candidate.word e.word == idx with hbins
  have h1 : ∑ i ∈ Finset.range 243,
        ((fun b : ℕ => (b : ℚ) * (b : ℚ)) ∘ bins) i
      = ∑ j ∈ Finset.range 243, (bins j : ℚ) ^ 2 :=
    Finset.sum_congr rfl fun j _ => by simp [Function.comp]; ring
  have h2 : ((Finset.range 243).filter fun i =>
        ((fun b : ℕ => b == 1) ∘ bins) i = true)
      = ((Finset.range 243).filter fun j => bins j = 1) := by
    apply Finset.filter_congr
    intro j _
    simp [Function.comp]
  have h3 : (if (1 : ℤ) < turn then
        ((((Finset.range 243).filter fun j => bins j = 1).card : ℕ) : ℚ) * 0.04
      else 0)
      = (if turn = 1 then 0
        else 0.04 * ((((Finset.range 243).filter fun j => bins j = 1).card : ℕ) : ℚ)) := by
    by_cases hturn : turn = 1
    · rw [if_neg (by omega), if_pos hturn]
    · rw [if_pos (by omega), if_neg hturn]
      ring
  have h4 : ((valid_count : ℚ) * (valid_count : ℚ)) = (valid_count : ℚ) ^ 2 := by
    ring
  rw [h1, h2, h3, h4]

/-- CLAIM C7 witness: the formula theorem applied to a concrete candidate,
two-answer view, `validAnswerCount = 2` and `turn = 2`. -/
theorem lookahead_bonus_formula_witness :
    ((1 : ℤ) < 2) ∧ ((1 : ℤ) ≤ 2) ∧
    calculate_lookahead_bonus (fun _ => 0) entrySPEED [entrySPEED, entryABIDE]
        2 2 =
      (let bucket : ℕ → ℕ := fun j =>
        ((([entrySPEED, entryABIDE] : List dictionary_entry_t).take
            ((2 : ℤ)).toNat).map
          fun e => lookahead_feedback_index entrySPEED.word e.word).count j
      let safety : ℚ := (0 : ℚ)
      let sniper : ℚ := if (2 : ℤ) = 1 then 0
        else 0.04 * (((Finset.range 243).filter fun j => bucket j = 1).card : ℚ)
      let total : ℚ := safety + sniper
      let maxB : ℕ := (Finset.range 243).sup bucket
      if (6 : ℤ) - 2 < (maxB : ℤ) then total - 100
      else if 4 < (2 : ℤ) ∧ (2 : ℤ) / 2 + 1 < (maxB : ℤ) then total - 5
      else total) :=
  ⟨by norm_num, by norm_num,
    lookahead_bonus_formula (fun _ => 0) entrySPEED [entrySPEED, entryABIDE]
      2 2 (by norm_num) (by norm_num)⟩

-- The strategy engine of `solver_logic.cpp`.

/-- `is_linguistically_sound`: rejects plural nouns, past-tense verbs and
third-person verbs. -/
def is_linguistically_sound (e : dictionary_entry_t) : Bool :=
  if e.noun_type = 'P' then false
  else if e.verb_type = 'T' then false
  else if e.verb_type = 'S' then false
  else true

/-- Number of occurrences of letter `c` in word `w` (the `guess_counts`
tally of `is_risky_guess`). -/
def letter_count (w : Word) (c : Fin 26) : ℕ :=
  (List.finRange 5).countP fun i => w i == c

/-- `is_risky_guess`: true when some letter is used more than once and more
often than the tracked minimum requires. -/
def is_risky_guess (e : dictionary_entry_t) (min_required_counts : Fin 26 → ℕ) : Bool :=
  (List.finRange 26).any fun c =>
    1 < letter_count e.word c && min_required_counts c < letter_count e.word c

/-- The vowel list `"AEIOUY"` as letter indices. -/
def vowel_letters : List (Fin 26) := [0, 4, 8, 14, 20, 24]

/-- `count_known_vowels`: how many distinct vowels have a positive tracked
minimum count. -/
def count_known_vowels (min_required_counts : Fin 26 → ℕ) : ℕ :=
  vowel_letters.countP fun c => 0 < min_required_counts c

/-- Does word `w` contain letter `c`? -/
def word_has_letter (w : Word) (c : Fin 26) : Bool :=
  (List.finRange 5).any fun i => w i == c

/-- `count_new_vowels`: distinct vowels of the word not yet known (the C
loop's `seen` array makes it a distinct-letter count). -/
def count_new_vowels (w : Word) (min_required_counts : Fin 26 → ℕ) : ℕ :=
  vowel_letters.countP fun c => word_has_letter w c && min_required_counts c == 0

/-- `calculate_anchor_score`: terminal Y = +3, terminal E = +2, a central
vowel (AEIOU, not Y) = +1. -/
def calculate_anchor_score (w : Word) : ℕ :=
  (if w 4 = (24 : Fin 26) then 3 else if w 4 = (4 : Fin 26) then 2 else 0)
    + (if w 2 = (0 : Fin 26) ∨ w 2 = (4 : Fin 26) ∨ w 2 = (8 : Fin 26)
        ∨ w 2 = (14 : Fin 26) ∨ w 2 = (20 : Fin 26) then 1 else 0)

/-- `count_unique_vowels_simple`: distinct vowels of the word. -/
def count_unique_vowels_simple (w : Word) : ℕ :=
  vowel_letters.countP fun c => word_has_letter w c

/-- `calculate_new_letter_coverage`: distinct letters of the word with no
tracked Green/Yellow yet. -/
def calculate_new_letter_coverage (w : Word) (min_required_counts : Fin 26 → ℕ) : ℕ :=
  (List.finRange 26).countP fun c => word_has_letter w c && min_required_counts c == 0

/-- `build_heatmap_matrix`: positional letter frequency over the
non-eliminated entries of the scanned array. -/
def build_heatmap_matrix (p_dictionary : List dictionary_entry_t)
    (j : Fin 5) (c : Fin 26) : ℕ :=
  (p_dictionary.filter fun e => !e.is_eliminated).countP fun e => e.word j == c

/-- `get_heatmap_score`: summed positional frequency of the word's letters. -/
def get_heatmap_score (w : Word) (heatmap : Fin 5 → Fin 26 → ℕ) : ℕ :=
  ((List.finRange 5).map fun j => heatmap j (w j)).sum

/-- The linguistic/risk filter block shared by the scanning stages of
`get_smart_hybrid_guess` (strategies D, A, B and the heatmap stage):
`pass` starts true, the linguistic filter applies from its start turn, and
the risk filter applies when configured. -/
def stage_filter_pass (config : HybridConfig) (min_required_counts : Fin 26 → ℕ)
    (turn : ℤ) (cand : dictionary_entry_t) : Bool :=
  let apply_ling := config.use_linguistic_filter
    && decide (config.linguistic_filter_start_turn ≤ turn)
  if apply_ling && !is_linguistically_sound cand then false
  else if config.use_risk_filter && is_risky_guess cand min_required_counts then false
  else true

/-- The scan of STRATEGY D (dynamic turn-2 coverage): over the rank view
prefix, keep the filter-passing non-eliminated candidate with the highest
new-letter coverage (`best_cov` starts at −1, strict improvement only). -/
def coverage_scan (config : HybridConfig) (min_required_counts : Fin 26 → ℕ)
    (turn : ℤ) : List dictionary_entry_t → ℤ → Option dictionary_entry_t →
      Option dictionary_entry_t
  | [], _, best => best
  | cand :: rest, best_cov, best =>
    if stage_filter_pass config min_required_counts turn cand && !cand.is_eliminated then
      let cov : ℤ := calculate_new_letter_coverage cand.word min_required_counts
      if best_cov < cov then
        coverage_scan config min_required_counts turn rest cov (some cand)
      else coverage_scan config min_required_counts turn rest best_cov best
    else coverage_scan config min_required_counts turn rest best_cov best

/-- The scan of STRATEGY A (vowel contingency): over the entropy view
prefix, maximise the count of new vowels, breaking ties by higher entropy. -/
def vowel_contingency_scan (config : HybridConfig)
    (min_required_counts : Fin 26 → ℕ) (turn : ℤ) :
    List dictionary_entry_t → ℤ → ℚ → Option dictionary_entry_t →
      Option dictionary_entry_t
  | [], _, _, best => best
  | cand :: rest, best_new, best_ent, best =>
    if stage_filter_pass config min_required_counts turn cand then
      let v : ℤ := count_new_vowels cand.word min_required_counts
      if best_new < v then
        vowel_contingency_scan config min_required_counts turn rest v
          cand.entropy (some cand)
      else if v = best_new ∧ best_ent < cand.entropy then
        vowel_contingency_scan config min_required_counts turn rest best_new
          cand.entropy (some cand)
      else vowel_contingency_scan config min_required_counts turn rest best_new
        best_ent best
    else vowel_contingency_scan config min_required_counts turn rest best_new
      best_ent best

/-- The scan of STRATEGY B (early bias): over the entropy view prefix,
maximise the anchor score (or the unique-vowel count), breaking ties by
higher entropy. -/
def early_bias_scan (config : HybridConfig)
    (min_required_counts : Fin 26 → ℕ) (turn : ℤ) :
    List dictionary_entry_t → ℤ → ℚ → Option dictionary_entry_t →
      Option dictionary_entry_t
  | [], _, _, best => best
  | cand :: rest, best_score, best_ent, best =>
    if stage_filter_pass config min_required_counts turn cand then
      let sc : ℤ := if config.prioritize_anchors then calculate_anchor_score cand.word
        else count_unique_vowels_simple cand.word
      if best_score < sc then
        early_bias_scan config min_required_counts turn rest sc
          cand.entropy (some cand)
      else if sc = best_score ∧ best_ent < cand.entropy then
        early_bias_scan config min_required_counts turn rest best_score
          cand.entropy (some cand)
      else early_bias_scan config min_required_counts turn rest best_score
        best_ent best
    else early_bias_scan config min_required_counts turn rest best_score
      best_ent best

/-- The scan of the HEATMAP stage: walk the entropy view, consider at most
20 filter-passing candidates (`scanned` counts only passing ones, the loop
breaks at 20), maximise the heatmap score (strict improvement only). -/
def heatmap_scan (config : HybridConfig) (min_required_counts : Fin 26 → ℕ)
    (turn : ℤ) (heatmap : Fin 5 → Fin 26 → ℕ) :
    List dictionary_entry_t → ℕ → ℤ → Option dictionary_entry_t →
      Option dictionary_entry_t
  | [], _, _, best => best
  | cand :: rest, scanned, best_score, best =>
    if 20 ≤ scanned then best
    else if stage_filter_pass config min_required_counts turn cand then
      let sc : ℤ := get_heatmap_score cand.word heatmap
      if best_score < sc then
        heatmap_scan config min_required_counts turn heatmap rest (scanned + 1)
          sc (some cand)
      else heatmap_scan config min_required_counts turn heatmap rest (scanned + 1)
        best_score best
    else heatmap_scan config min_required_counts turn heatmap rest scanned
      best_score best

/-- The filter block of the MAIN LOOP of `get_smart_hybrid_guess`:
an "endgame solver" (non-eliminated candidate with `valid_count ≤ 10`)
always passes; otherwise the linguistic filter applies from its start turn
but is switched off in panic mode, and the risk filter applies when
configured (panic mode does NOT switch it off). -/
def main_loop_pass (config : HybridConfig) (min_required_counts : Fin 26 → ℕ)
    (valid_count turn : ℤ) (is_endgame_panic : Bool)
    (cand : dictionary_entry_t) : Bool :=
  let is_endgame_solver := !cand.is_eliminated && decide (valid_count ≤ 10)
  if is_endgame_solver then true
  else
    let apply_ling0 := config.use_linguistic_filter
      && decide (config.linguistic_filter_start_turn ≤ turn)
    let apply_ling := if is_endgame_panic then false else apply_ling0
    if apply_ling && !is_linguistically_sound cand then false
    else if config.use_risk_filter && is_risky_guess cand min_required_counts then
      false
    else true

/-- The candidate loop of the MAIN LOOP: candidates are scanned in entropy
order, capped at `max_evals` evaluated (passing) candidates; the score is
the entropy plus, when lookahead is active and panic mode is off, the
lookahead bonus; the running maximum is kept under strict improvement. -/
def main_scan (log10 : ℚ → ℚ) (config : HybridConfig)
    (min_required_counts : Fin 26 → ℕ) (valid_count turn : ℤ)
    (p_rank_sorted : List dictionary_entry_t) (is_endgame_panic : Bool)
    (max_evals : ℕ) :
    List dictionary_entry_t → ℕ → ℚ → Option dictionary_entry_t →
      Option dictionary_entry_t
  | [], _, _, best => best
  | cand :: rest, evals, best_score, best =>
    if max_evals ≤ evals then best
    else if main_loop_pass config min_required_counts valid_count turn
        is_endgame_panic cand then
      let current_score : ℚ := cand.entropy +
        (if 0 < config.look_ahead_depth ∧ is_endgame_panic = false then
          calculate_lookahead_bonus log10 cand p_rank_sorted valid_count turn
        else 0)
      if best_score < current_score then
        main_scan log10 config min_required_counts valid_count turn
          p_rank_sorted is_endgame_panic max_evals rest (evals + 1)
          current_score (some cand)
      else
        main_scan log10 config min_required_counts valid_count turn
          p_rank_sorted is_endgame_panic max_evals rest (evals + 1)
          best_score best
    else
      main_scan log10 config min_required_counts valid_count turn
        p_rank_sorted is_endgame_panic max_evals rest evals best_score best

/-- STRATEGY C of `get_smart_hybrid_guess` (main loop plus fallback):
panic mode is `valid_count ≤ 20`; with lookahead active and no panic the
evaluation cap is `PRUNE_COUNT = 60`, else `count`; if no candidate was
kept, fall back to the entropy view's first element. -/
def main_stage (log10 : ℚ → ℚ) (config : HybridConfig)
    (min_required_counts : Fin 26 → ℕ) (valid_count turn : ℤ)
    (p_entropy_sorted p_rank_sorted : List dictionary_entry_t)
    (count : ℕ) : Option dictionary_entry_t :=
  let is_endgame_panic : Bool := decide (valid_count ≤ 20)
  let max_evals : ℕ :=
    if 0 < config.look_ahead_depth ∧ is_endgame_panic = false then 60 else count
  match main_scan log10 config min_required_counts valid_count turn
      p_rank_sorted is_endgame_panic max_evals (p_entropy_sorted.take count) 0
      (-1000) none with
  | some c => some c
  | none => (p_entropy_sorted.take count).head?

/-- The rank tie-break block of `get_smart_hybrid_guess`: applied only when
`rank_priority_tolerance > 0` and panic mode is off; the best rank
candidate is the first filter-passing entry of the rank view (initialised
to its first element); if the entropy gap is below the tolerance the rank
candidate replaces the final pick. -/
def tie_break_stage (config : HybridConfig) (min_required_counts : Fin 26 → ℕ)
    (valid_count turn : ℤ) (p_rank_sorted : List dictionary_entry_t)
    (count : ℕ) (best_final : Option dictionary_entry_t) :
    Option dictionary_entry_t :=
  if 0 < config.rank_priority_tolerance ∧ ¬ (valid_count ≤ 20) then
    let best_rank : Option dictionary_entry_t :=
      match (p_rank_sorted.take count).find?
          (main_loop_pass config min_required_counts valid_count turn false) with
      | some c => some c
      | none => (p_rank_sorted.take count).head?
    match best_final, best_rank with
    | some bf, some br =>
      if bf.entropy - br.entropy < config.rank_priority_tolerance then some br
      else some bf
    | _, _ => best_final
  else best_final

/-- `get_smart_hybrid_guess` of `solver_logic.cpp`: the master decision
engine.  Returns `none` exactly when the C function returns `NULL`. -/
def get_smart_hybrid_guess (log10 : ℚ → ℚ)
    (p_entropy_sorted p_rank_sorted : List dictionary_entry_t) (count : ℕ)
    (config : HybridConfig) (min_required_counts : Fin 26 → ℕ)
    (valid_count turn : ℤ) : Option dictionary_entry_t :=
  if count = 0 then none
  else
    let stageD : Option dictionary_entry_t :=
      if config.prioritize_turn2_coverage ∧ turn = 2 then
        coverage_scan config min_required_counts turn
          (p_rank_sorted.take (min count 100)) (-1) none
      else none
    match stageD with
    | some c => some c
    | none =>
      let stageA : Option dictionary_entry_t :=
        if config.prioritize_vowel_contingency ∧ turn = 2
            ∧ count_known_vowels min_required_counts < 2 then
          vowel_contingency_scan config min_required_counts turn
            (p_entropy_sorted.take (min count 30)) (-1) (-1) none
        else none
      match stageA with
      | some c => some c
      | none =>
        let stageB : Option dictionary_entry_t :=
          if turn ≤ 2 ∧ (config.prioritize_new_vowels ∨ config.prioritize_anchors) then
            early_bias_scan config min_required_counts turn
              (p_entropy_sorted.take (min count 30)) (-1) (-1) none
          else none
        match stageB with
        | some c => some c
        | none =>
          let stageH : Option dictionary_entry_t :=
            if config.use_heatmap_priority ∧ 2 < valid_count then
              heatmap_scan config min_required_counts turn
                (build_heatmap_matrix (p_entropy_sorted.take count))
                (p_entropy_sorted.take count) 0 (-1) none
            else none
          match stageH with
          | some c => some c
          | none =>
            tie_break_stage config min_required_counts valid_count turn
              p_rank_sorted count
              (main_stage log10 config min_required_counts valid_count turn
                p_entropy_sorted p_rank_sorted count)

/-- Pure greedy entropy selection: walk the candidates in order keeping the
first strict maximiser of the entropy field among those accepted by
`passP`; no lookahead, no cap, no dependence on any log function. -/
def pure_entropy_scan (passP : dictionary_entry_t → Bool) :
    List dictionary_entry_t → ℚ → Option dictionary_entry_t →
      Option dictionary_entry_t
  | [], _, best => best
  | cand :: rest, best_score, best =>
    if passP cand then
      if best_score < cand.entropy then
        pure_entropy_scan passP rest cand.entropy (some cand)
      else pure_entropy_scan passP rest best_score best
    else pure_entropy_scan passP rest best_score best

/-- In panic mode and below the evaluation cap, the main loop is exactly
the pure entropy scan: no lookahead bonus enters any score. -/
lemma main_scan_panic (log10 : ℚ → ℚ) (config : HybridConfig)
    (min_required_counts : Fin 26 → ℕ) (valid_count turn : ℤ)
    (p_rank_sorted : List dictionary_entry_t) (max_evals : ℕ) :
    ∀ (l : List dictionary_entry_t) (evals : ℕ) (bs : ℚ)
      (best : Option dictionary_entry_t), l.length + evals ≤ max_evals →
      main_scan log10 config min_required_counts valid_count turn
          p_rank_sorted true max_evals l evals bs best
        = pure_entropy_scan
            (main_loop_pass config min_required_counts valid_count turn true)
            l bs best := by
  intro l
  induction l with
  | nil => intro evals bs best h; rfl
  | cons cand rest ih =>
    intro evals bs best h
    simp only [List.length_cons] at h
    rw [main_scan, pure_entropy_scan, if_neg (by omega : ¬ max_evals ≤ evals)]
    have hbonus : (if 0 < config.look_ahead_depth ∧ (true : Bool) = false then
        calculate_lookahead_bonus log10 cand p_rank_sorted valid_count turn
      else 0) = 0 := by simp
    by_cases hp : main_loop_pass config min_required_counts valid_count turn true cand
    · rw [if_pos hp, if_pos hp]
      simp only [hbonus, add_zero]
      by_cases hlt : bs < cand.entropy
      · rw [if_pos hlt, if_pos hlt]
        exact ih _ _ _ (by omega)
      · rw [if_neg hlt, if_neg hlt]
        exact ih _ _ _ (by omega)
    · rw [if_neg hp, if_neg hp]
      exact ih _ _ _ (by omega)

/-- In panic mode the linguistic filter flag is irrelevant to the main
loop's filter. -/
lemma main_loop_pass_panic_no_linguistic (config : HybridConfig)
    (min_required_counts : Fin 26 → ℕ) (valid_count turn : ℤ) (b : Bool)
    (cand : dictionary_entry_t) :
    main_loop_pass config min_required_counts valid_count turn true cand
      = main_loop_pass { config with use_linguistic_filter := b }
          min_required_counts valid_count turn true cand := by
  simp [main_loop_pass]

/-- CLAIM C1 (amended) — whenever `validAnswerCount ≤ 20` (endgame panic):
the main selection loop reduces to the pure entropy scan over the filtered
candidates (so no lookahead bonus is ever added, the evaluation cap is
lifted, and the pick follows pure entropy ordering among the evaluated
candidates), and the linguistic filter is disabled (the loop's filter does
not depend on `use_linguistic_filter`); the risk filter, however, remains
active inside the loop's filter. -/
theorem panic_disables_lookahead_and_linguistic (log10 : ℚ → ℚ)
    (config : HybridConfig) (min_required_counts : Fin 26 → ℕ)
    (valid_count turn : ℤ)
    (p_entropy_sorted p_rank_sorted : List dictionary_entry_t) (count : ℕ)
    (h : valid_count ≤ 20) :
    (main_stage log10 config min_required_counts valid_count turn
        p_entropy_sorted p_rank_sorted count
      = (match pure_entropy_scan
            (main_loop_pass config min_required_counts valid_count turn true)
            (p_entropy_sorted.take count) (-1000) none with
         | some c => some c
         | none => (p_entropy_sorted.take count).head?)) ∧
    (∀ (b : Bool) (cand : dictionary_entry_t),
      main_loop_pass config min_required_counts valid_count turn true cand
        = main_loop_pass { config with use_linguistic_filter := b }
            min_required_counts valid_count turn true cand) := by
  constructor
  · have hdec : decide (valid_count ≤ 20) = true := by simpa using h
    simp only [main_stage, hdec, Bool.true_eq_false, and_false, if_false]
    rw [main_scan_panic log10 config min_required_counts valid_count turn
      p_rank_sorted count (p_entropy_sorted.take count) 0 (-1000) none
      (by simp [List.length_take_le])]
  · exact fun b cand =>
      main_loop_pass_panic_no_linguistic config min_required_counts
        valid_count turn b cand

-- Concrete strategy configurations used by witnesses and counterexamples.

/-- A bare configuration: no filters, no heuristics, no lookahead. -/
def cfgBasic : HybridConfig :=
  { name := "basic", base_strategy_index := -1, use_linguistic_filter := false,
    linguistic_filter_start_turn := 1, use_risk_filter := false,
    prioritize_new_vowels := false, prioritize_anchors := false,
    prioritize_vowel_contingency := false, look_ahead_depth := 0,
    rank_priority_tolerance := 0, opener_override_word := none,
    use_heatmap_priority := false, second_opener_override_word := none,
    prioritize_turn2_coverage := false }

/-- The bare configuration with the risk filter enabled. -/
def cfgRisk : HybridConfig := { cfgBasic with use_risk_filter := true }

/-- The bare configuration with the risk filter enabled and a rank
priority tolerance of 2. -/
def cfgRiskTol : HybridConfig :=
  { cfgBasic with use_risk_filter := true, rank_priority_tolerance := 2 }

/-- CLAIM C1 counterexample — with `validAnswerCount = 15 ≤ 20` (panic) and
the risk filter configured, the linguistically sound, non-eliminated,
higher-entropy candidate "SPEED" is rejected by the risk filter (it repeats
E with no tracked requirement), so the chosen guess is the lower-entropy
"ABIDE" and does not match pure entropy ordering over all candidates: the
risk filter is NOT disabled by endgame panic. -/
theorem panic_risk_filter_counterexample :
    (15 : ℤ) ≤ 20 ∧
    is_linguistically_sound entrySPEED = true ∧
    is_risky_guess entrySPEED (fun _ => 0) = true ∧
    entryABIDE.entropy < entrySPEED.entropy ∧
    get_smart_hybrid_guess (fun _ => 0) [entrySPEED, entryABIDE]
        [entrySPEED, entryABIDE] 2 cfgRisk (fun _ => 0) 15 3
      = some entryABIDE := by
  refine ⟨by norm_num, by decide, by decide, by decide, ?_⟩
  simp only [get_smart_hybrid_guess, main_stage, tie_break_stage, main_scan,
    main_loop_pass, pure_entropy_scan, cfgRisk, cfgBasic, entrySPEED, entryABIDE,
    List.take]
  norm_num
  decide

/-- CLAIM C1 witness: the amended theorem applied at a concrete panic
input. -/
theorem panic_disables_lookahead_and_linguistic_witness :
    (5 : ℤ) ≤ 20 ∧
    ((main_stage (fun _ => 0) cfgBasic (fun _ => 0) 5 3 [entryABIDE]
        [entryABIDE] 1
      = (match pure_entropy_scan
            (main_loop_pass cfgBasic (fun _ => 0) 5 3 true)
            (([entryABIDE] : List dictionary_entry_t).take 1) (-1000) none with
         | some c => some c
         | none => (([entryABIDE] : List dictionary_entry_t).take 1).head?)) ∧
    (∀ (b : Bool) (cand : dictionary_entry_t),
      main_loop_pass cfgBasic (fun _ => 0) 5 3 true cand
        = main_loop_pass { cfgBasic with use_linguistic_filter := b }
            (fun _ => 0) 5 3 true cand)) :=
  ⟨by norm_num,
    panic_disables_lookahead_and_linguistic (fun _ => 0) cfgBasic (fun _ => 0)
      5 3 [entryABIDE] [entryABIDE] 1 (by norm_num)⟩

/-- Closed boolean form of the main loop filter. -/
lemma main_loop_pass_closed (config : HybridConfig)
    (min_required_counts : Fin 26 → ℕ) (valid_count turn : ℤ) (p : Bool)
    (cand : dictionary_entry_t) :
    main_loop_pass config min_required_counts valid_count turn p cand
      = ((!cand.is_eliminated && decide (valid_count ≤ 10))
        || (!((if p = true then false
              else config.use_linguistic_filter
                && decide (config.linguistic_filter_start_turn ≤ turn))
            && !is_linguistically_sound cand)
          && !(config.use_risk_filter
            && is_risky_guess cand min_required_counts))) := by
  simp only [main_loop_pass]
  cases h1 : (!cand.is_eliminated && decide (valid_count ≤ 10)) <;>
  cases p <;>
  cases h2 : (config.use_linguistic_filter
    && decide (config.linguistic_filter_start_turn ≤ turn)) <;>
  cases h3 : is_linguistically_sound cand <;>
  cases h4 : (config.use_risk_filter
    && is_risky_guess cand min_required_counts) <;>
  simp_all

/-- Closed boolean form of the stage filter. -/
lemma stage_filter_pass_closed (config : HybridConfig)
    (min_required_counts : Fin 26 → ℕ) (turn : ℤ)
    (cand : dictionary_entry_t) :
    stage_filter_pass config min_required_counts turn cand
      = (!((config.use_linguistic_filter
            && decide (config.linguistic_filter_start_turn ≤ turn))
          && !is_linguistically_sound cand)
        && !(config.use_risk_filter
          && is_risky_guess cand min_required_counts)) := by
  simp only [stage_filter_pass]
  cases h2 : (config.use_linguistic_filter
    && decide (config.linguistic_filter_start_turn ≤ turn)) <;>
  cases h3 : is_linguistically_sound cand <;>
  cases h4 : (config.use_risk_filter
    && is_risky_guess cand min_required_counts) <;>
  simp_all

/-- A candidate the main loop rejects is also rejected by the stage filter
block (the main loop's filter is the stage filter weakened by the solver
exemption and the panic override of the linguistic filter). -/
lemma main_fail_stage_fail (config : HybridConfig)
    (min_required_counts : Fin 26 → ℕ) (valid_count turn : ℤ) (p : Bool)
    (cand : dictionary_entry_t)
    (h : main_loop_pass config min_required_counts valid_count turn p cand = false) :
    stage_filter_pass config min_required_counts turn cand = false := by
  rw [main_loop_pass_closed] at h
  rw [stage_filter_pass_closed]
  cases p <;>
  cases h2 : (config.use_linguistic_filter
    && decide (config.linguistic_filter_start_turn ≤ turn)) <;>
  cases h3 : is_linguistically_sound cand <;>
  cases h4 : (config.use_risk_filter
    && is_risky_guess cand min_required_counts) <;>
  simp_all

/-- A candidate the main loop rejects under any panic flag is also rejected
with the panic flag off. -/
lemma main_fail_no_panic (config : HybridConfig)
    (min_required_counts : Fin 26 → ℕ) (valid_count turn : ℤ) (p : Bool)
    (cand : dictionary_entry_t)
    (h : main_loop_pass config min_required_counts valid_count turn p cand = false) :
    main_loop_pass config min_required_counts valid_count turn false cand = false := by
  rw [main_loop_pass_closed] at h
  rw [main_loop_pass_closed]
  cases p <;>
  cases h2 : (config.use_linguistic_filter
    && decide (config.linguistic_filter_start_turn ≤ turn)) <;>
  cases h3 : is_linguistically_sound cand <;>
  cases h4 : (config.use_risk_filter
    && is_risky_guess cand min_required_counts) <;>
  simp_all

/-- `coverage_scan` keeps its accumulator when every candidate fails the
stage filter. -/
lemma coverage_scan_none (config : HybridConfig)
    (min_required_counts : Fin 26 → ℕ) (turn : ℤ) :
    ∀ (l : List dictionary_entry_t) (bc : ℤ),
      (∀ e ∈ l, stage_filter_pass config min_required_counts turn e = false) →
      coverage_scan config min_required_counts turn l bc none = none := by
  intro l
  induction l with
  | nil => intro bc _; rfl
  | cons cand rest ih =>
    intro bc h
    have hc := h cand (List.mem_cons_self _ _)
    simp only [coverage_scan, hc, Bool.false_and, Bool.false_eq_true, if_false]
    exact ih bc fun e he => h e (List.mem_cons_of_mem _ he)

/-- `vowel_contingency_scan` keeps its accumulator when every candidate
fails the stage filter. -/
lemma vowel_contingency_scan_none (config : HybridConfig)
    (min_required_counts : Fin 26 → ℕ) (turn : ℤ) :
    ∀ (l : List dictionary_entry_t) (bn : ℤ) (be : ℚ),
      (∀ e ∈ l, stage_filter_pass config min_required_counts turn e = false) →
      vowel_contingency_scan config min_required_counts turn l bn be none = none := by
  intro l
  induction l with
  | nil => intro bn be _; rfl
  | cons cand rest ih =>
    intro bn be h
    have hc := h cand (List.mem_cons_self _ _)
    simp only [vowel_contingency_scan, hc, Bool.false_eq_true, if_false]
    exact ih bn be fun e he => h e (List.mem_cons_of_mem _ he)

/-- `early_bias_scan` keeps its accumulator when every candidate fails the
stage filter. -/
lemma early_bias_scan_none (config : HybridConfig)
    (min_required_counts : Fin 26 → ℕ) (turn : ℤ) :
    ∀ (l : List dictionary_entry_t) (bs : ℤ) (be : ℚ),
      (∀ e ∈ l, stage_filter_pass config min_required_counts turn e = false) →
      early_bias_scan config min_required_counts turn l bs be none = none := by
  intro l
  induction l with
  | nil => intro bs be _; rfl
  | cons cand rest ih =>
    intro bs be h
    have hc := h cand (List.mem_cons_self _ _)
    simp only [early_bias_scan, hc, Bool.false_eq_true, if_false]
    exact ih bs be fun e he => h e (List.mem_cons_of_mem _ he)

/-- `heatmap_scan` keeps its accumulator when every candidate fails the
stage filter. -/
lemma heatmap_scan_none (config : HybridConfig)
    (min_required_counts : Fin 26 → ℕ) (turn : ℤ)
    (heatmap : Fin 5 → Fin 26 → ℕ) :
    ∀ (l : List dictionary_entry_t) (scanned : ℕ) (bs : ℤ),
      (∀ e ∈ l, stage_filter_pass config min_required_counts turn e = false) →
      heatmap_scan config min_required_counts turn heatmap l scanned bs none = none := by
  intro l
  induction l with
  | nil => intro scanned bs _; rfl
  | cons cand rest ih =>
    intro scanned bs h
    have hc := h cand (List.mem_cons_self _ _)
    by_cases hlim : 20 ≤ scanned
    · simp only [heatmap_scan, if_pos hlim]
    · simp only [heatmap_scan, if_neg hlim, hc, Bool.false_eq_true, if_false]
      exact ih scanned bs fun e he => h e (List.mem_cons_of_mem _ he)

/-- `main_scan` keeps its accumulator when every candidate fails the main
loop filter. -/
lemma main_scan_none (log10 : ℚ → ℚ) (config : HybridConfig)
    (min_required_counts : Fin 26 → ℕ) (valid_count turn : ℤ)
    (p_rank_sorted : List dictionary_entry_t) (panic : Bool) (max_evals : ℕ) :
    ∀ (l : List dictionary_entry_t) (evals : ℕ) (bs : ℚ),
      (∀ e ∈ l, main_loop_pass config min_required_counts valid_count turn
        panic e = false) →
      main_scan log10 config min_required_counts valid_count turn p_rank_sorted
        panic max_evals l evals bs none = none := by
  intro l
  induction l with
  | nil => intro evals bs _; rfl
  | cons cand rest ih =>
    intro evals bs h
    have hc := h cand (List.mem_cons_self _ _)
    by_cases hlim : max_evals ≤ evals
    · simp only [main_scan, if_pos hlim]
    · simp only [main_scan, if_neg hlim, hc, Bool.false_eq_true, if_false]
      exact ih evals bs fun e he => h e (List.mem_cons_of_mem _ he)

/-- A nonempty list's optional head is its defaulted head. -/
lemma head?_eq_headD {l : List dictionary_entry_t} (h : l ≠ []) :
    l.head? = some (l.headD dummy_entry) := by
  cases l with
  | nil => exact absurd rfl h
  | cons a t => rfl

/-- A prefix of positive requested length of a long-enough list is
nonempty. -/
lemma take_ne_nil {l : List dictionary_entry_t} {count : ℕ}
    (hc : 0 < count) (hl : count ≤ l.length) : l.take count ≠ [] := by
  have h2 : (l.take count).length = count := by
    rw [List.length_take]
    omega
  intro hnil
  rw [hnil] at h2
  simp at h2
  omega

/-- Elements of the capped stage prefix lie in the `count`-prefix. -/
lemma mem_take_min {l : List dictionary_entry_t} {e : dictionary_entry_t}
    {count K : ℕ} (h : e ∈ l.take (min count K)) : e ∈ l.take count := by
  have heq : l.take (min count K) = (l.take count).take K := by
    rw [List.take_take, Nat.min_comm]
  rw [heq] at h
  exact List.take_subset _ _ h

/-- The main stage always produces a candidate on a nonempty view. -/
lemma main_stage_isSome (log10 : ℚ → ℚ) (config : HybridConfig)
    (min_required_counts : Fin 26 → ℕ) (valid_count turn : ℤ)
    (p_entropy_sorted p_rank_sorted : List dictionary_entry_t) (count : ℕ)
    (hc : 0 < count) (hl : count ≤ p_entropy_sorted.length) :
    (main_stage log10 config min_required_counts valid_count turn
      p_entropy_sorted p_rank_sorted count).isSome = true := by
  simp only [main_stage]
  cases hm : main_scan log10 config min_required_counts valid_count turn
      p_rank_sorted (decide (valid_count ≤ 20))
      (if 0 < config.look_ahead_depth ∧ (decide (valid_count ≤ 20)) = false
        then 60 else count)
      (p_entropy_sorted.take count) 0 (-1000) none with
  | some c => simp [hm]
  | none =>
    simp only [hm]
    rw [head?_eq_headD (take_ne_nil hc hl)]
    rfl

/-- The tie-break stage never discards a produced candidate. -/
lemma tie_break_stage_isSome (config : HybridConfig)
    (min_required_counts : Fin 26 → ℕ) (valid_count turn : ℤ)
    (p_rank_sorted : List dictionary_entry_t) (count : ℕ)
    (b : Option dictionary_entry_t) (hb : b.isSome = true) :
    (tie_break_stage config min_required_counts valid_count turn p_rank_sorted
      count b).isSome = true := by
  unfold tie_break_stage
  by_cases hcond : 0 < config.rank_priority_tolerance ∧ ¬ (valid_count ≤ 20)
  · rw [if_pos hcond]
    cases b with
    | none => simp at hb
    | some bf =>
      cases hfind : (p_rank_sorted.take count).find?
          (main_loop_pass config min_required_counts valid_count turn false) with
      | some br =>
        simp only [hfind]
        split_ifs <;> rfl
      | none =>
        simp only [hfind]
        cases hh : (p_rank_sorted.take count).head? with
        | none => simp [hh]
        | some br =>
          simp only [hh]
          split_ifs <;> rfl
  · rw [if_neg hcond]
    exact hb

/-- When no candidate of either view prefix passes the main loop filter,
`get_smart_hybrid_guess` falls back to the entropy view's first element,
unless the rank tie-break replaces it by the rank view's first element. -/
lemma guess_all_fail_result (log10 : ℚ → ℚ)
    (p_entropy_sorted p_rank_sorted : List dictionary_entry_t) (count : ℕ)
    (config : HybridConfig) (min_required_counts : Fin 26 → ℕ)
    (valid_count turn : ℤ)
    (hc : 0 < count) (hle : count ≤ p_entropy_sorted.length)
    (hlr : count ≤ p_rank_sorted.length)
    (hfe : ∀ e ∈ p_entropy_sorted.take count,
      main_loop_pass config min_required_counts valid_count turn
        (decide (valid_count ≤ 20)) e = false)
    (hfr : ∀ e ∈ p_rank_sorted.take count,
      main_loop_pass config min_required_counts valid_count turn
        (decide (valid_count ≤ 20)) e = false) :
    get_smart_hybrid_guess log10 p_entropy_sorted p_rank_sorted count config
        min_required_counts valid_count turn
      = if 0 < config.rank_priority_tolerance ∧ ¬ (valid_count ≤ 20)
            ∧ ((p_entropy_sorted.take count).headD dummy_entry).entropy
              - ((p_rank_sorted.take count).headD dummy_entry).entropy
              < config.rank_priority_tolerance
        then some ((p_rank_sorted.take count).headD dummy_entry)
        else some ((p_entropy_sorted.take count).headD dummy_entry) := by
  have hc0 : ¬ count = 0 := by omega
  have hstage_rank : ∀ e ∈ p_rank_sorted.take count,
      stage_filter_pass config min_required_counts turn e = false :=
    fun e he => main_fail_stage_fail config min_required_counts valid_count
      turn _ e (hfr e he)
  have hstage_ent : ∀ e ∈ p_entropy_sorted.take count,
      stage_filter_pass config min_required_counts turn e = false :=
    fun e he => main_fail_stage_fail config min_required_counts valid_count
      turn _ e (hfe e he)
  simp only [get_smart_hybrid_guess, if_neg hc0]
  have hD : (if config.prioritize_turn2_coverage ∧ turn = 2 then
      coverage_scan config min_required_counts turn
        (p_rank_sorted.take (min count 100)) (-1) none
    else none) = none := by
    split_ifs with hg
    · exact coverage_scan_none config min_required_counts turn _ _
        fun e he => hstage_rank e (mem_take_min he)
    · rfl
  have hA : (if config.prioritize_vowel_contingency ∧ turn = 2
      ∧ count_known_vowels min_required_counts < 2 then
      vowel_contingency_scan config min_required_counts turn
        (p_entropy_sorted.take (min count 30)) (-1) (-1) none
    else none) = none := by
    split_ifs with hg
    · exact vowel_contingency_scan_none config min_required_counts turn _ _ _
        fun e he => hstage_ent e (mem_take_min he)
    · rfl
  have hB : (if turn ≤ 2
      ∧ (config.prioritize_new_vowels ∨ config.prioritize_anchors) then
      early_bias_scan config min_required_counts turn
        (p_entropy_sorted.take (min count 30)) (-1) (-1) none
    else none) = none := by
    split_ifs with hg
    · exact early_bias_scan_none config min_required_counts turn _ _ _
        fun e he => hstage_ent e (mem_take_min he)
    · rfl
  have hH : (if config.use_heatmap_priority ∧ 2 < valid_count then
      heatmap_scan config min_required_counts turn
        (build_heatmap_matrix (p_entropy_sorted.take count))
        (p_entropy_sorted.take count) 0 (-1) none
    else none) = none := by
    split_ifs with hg
    · exact heatmap_scan_none config min_required_counts turn _ _ _ _ hstage_ent
    · rfl
  simp only [hD, hA, hB, hH]
  have hM : main_stage log10 config min_required_counts valid_count turn
      p_entropy_sorted p_rank_sorted count
      = some ((p_entropy_sorted.take count).headD dummy_entry) := by
    simp only [main_stage]
    rw [main_scan_none log10 config min_required_counts valid_count turn
      p_rank_sorted (decide (valid_count ≤ 20)) _ _ 0 (-1000) hfe]
    rw [head?_eq_headD (take_ne_nil hc hle)]
  rw [hM]
  unfold tie_break_stage
  by_cases hcond : 0 < config.rank_priority_tolerance ∧ ¬ (valid_count ≤ 20)
  · rw [if_pos hcond]
    have hfind : (p_rank_sorted.take count).find?
        (main_loop_pass config min_required_counts valid_count turn false)
        = none :=
      List.find?_eq_none.mpr fun x hx => by
        simp [main_fail_no_panic config min_required_counts valid_count turn
          _ x (hfr x hx)]
    simp only [hfind, head?_eq_headD (take_ne_nil hc hlr)]
    by_cases hdiff : ((p_entropy_sorted.take count).headD dummy_entry).entropy
        - ((p_rank_sorted.take count).headD dummy_entry).entropy
        < config.rank_priority_tolerance
    · rw [if_pos hdiff, if_pos ⟨hcond.1, hcond.2, hdiff⟩]
    · rw [if_neg hdiff, if_neg (by tauto)]
  · rw [if_neg hcond, if_neg (by tauto)]

/-- CLAIM C2 (amended) — `get_smart_hybrid_guess` returns no entry exactly
when `count = 0`: for every well-formed input with `count > 0` (both views
hold `count` entries) it returns some concrete entry; and when no candidate
passes the active filters it returns the first element of the
entropy-sorted view, except that when the rank tie-break is active
(`rank_priority_tolerance > 0` and no panic) and the entropy gap between
the two views' first elements is below the tolerance, it returns the
rank-sorted view's first element instead. -/
theorem guess_none_only_when_empty (log10 : ℚ → ℚ)
    (p_entropy_sorted p_rank_sorted : List dictionary_entry_t) (count : ℕ)
    (config : HybridConfig) (min_required_counts : Fin 26 → ℕ)
    (valid_count turn : ℤ) :
    (get_smart_hybrid_guess log10 p_entropy_sorted p_rank_sorted 0 config
        min_required_counts valid_count turn = none) ∧
    (0 < count → count ≤ p_entropy_sorted.length → count ≤ p_rank_sorted.length →
      (get_smart_hybrid_guess log10 p_entropy_sorted p_rank_sorted count config
        min_required_counts valid_count turn).isSome = true) ∧
    (0 < count → count ≤ p_entropy_sorted.length → count ≤ p_rank_sorted.length →
      (∀ e ∈ p_entropy_sorted.take count,
        main_loop_pass config min_required_counts valid_count turn
          (decide (valid_count ≤ 20)) e = false) →
      (∀ e ∈ p_rank_sorted.take count,
        main_loop_pass config min_required_counts valid_count turn
          (decide (valid_count ≤ 20)) e = false) →
      get_smart_hybrid_guess log10 p_entropy_sorted p_rank_sorted count config
          min_required_counts valid_count turn
        = if 0 < config.rank_priority_tolerance ∧ ¬ (valid_count ≤ 20)
              ∧ ((p_entropy_sorted.take count).headD dummy_entry).entropy
                - ((p_rank_sorted.take count).headD dummy_entry).entropy
                < config.rank_priority_tolerance
          then some ((p_rank_sorted.take count).headD dummy_entry)
          else some ((p_entropy_sorted.take count).headD dummy_entry)) := by
  refine ⟨by simp [get_smart_hybrid_guess], ?_, ?_⟩
  · intro hc hle hlr
    have hc0 : ¬ count = 0 := by omega
    simp only [get_smart_hybrid_guess, if_neg hc0]
    cases hD : (if config.prioritize_turn2_coverage ∧ turn = 2 then
        coverage_scan config min_required_counts turn
          (p_rank_sorted.take (min count 100)) (-1) none
      else none) with
    | some c => simp [hD]
    | none =>
    simp only [hD]
    cases hA : (if config.prioritize_vowel_contingency ∧ turn = 2
        ∧ count_known_vowels min_required_counts < 2 then
        vowel_contingency_scan config min_required_counts turn
          (p_entropy_sorted.take (min count 30)) (-1) (-1) none
      else none) with
    | some c => simp [hA]
    | none =>
    simp only [hA]
    cases hB : (if turn ≤ 2
        ∧ (config.prioritize_new_vowels ∨ config.prioritize_anchors) then
        early_bias_scan config min_required_counts turn
          (p_entropy_sorted.take (min count 30)) (-1) (-1) none
      else none) with
    | some c => simp [hB]
    | none =>
    simp only [hB]
    cases hH : (if config.use_heatmap_priority ∧ 2 < valid_count then
        heatmap_scan config min_required_counts turn
          (build_heatmap_matrix (p_entropy_sorted.take count))
          (p_entropy_sorted.take count) 0 (-1) none
      else none) with
    | some c => simp [hH]
    | none =>
    simp only [hH]
    exact tie_break_stage_isSome config min_required_counts valid_count turn
      p_rank_sorted count _
      (main_stage_isSome log10 config min_required_counts valid_count turn
        p_entropy_sorted p_rank_sorted count hc hle)
  · intro hc hle hlr hfe hfr
    exact guess_all_fail_result log10 p_entropy_sorted p_rank_sorted count
      config min_required_counts valid_count turn hc hle hlr hfe hfr

/-- The word "LEVEL". -/
def wLEVEL : Word := ![11, 4, 21, 4, 11]

/-- A risky (double-letter) entry with entropy 5, heading the entropy view. -/
def entryHi : dictionary_entry_t :=
  { word := wSPEED, entropy := 5, frequency_rank := 10, noun_type := 'N',
    verb_type := 'N', contains_duplicate_letters := true, is_eliminated := false }

/-- A risky (double-letter) entry with entropy 4, heading the rank view. -/
def entryLo : dictionary_entry_t :=
  { word := wLEVEL, entropy := 4, frequency_rank := 90, noun_type := 'N',
    verb_type := 'N', contains_duplicate_letters := true, is_eliminated := false }

/-- CLAIM C2 counterexample — with the risk filter on, no candidate passes
the active filters (both entries repeat letters with no tracked
requirement), yet with `rank_priority_tolerance = 2` and no panic the
function returns the rank view's first element `entryLo`, not the entropy
view's first element `entryHi` as the claim's fallback clause states. -/
theorem fallback_rank_override_counterexample :
    (∀ e ∈ ([entryHi, entryLo] : List dictionary_entry_t).take 2,
      main_loop_pass cfgRiskTol (fun _ => 0) 21 3 (decide ((21 : ℤ) ≤ 20)) e
        = false) ∧
    (∀ e ∈ ([entryLo, entryHi] : List dictionary_entry_t).take 2,
      main_loop_pass cfgRiskTol (fun _ => 0) 21 3 (decide ((21 : ℤ) ≤ 20)) e
        = false) ∧
    (([entryHi, entryLo] : List dictionary_entry_t).take 2).headD dummy_entry
      = entryHi ∧
    entryLo ≠ entryHi ∧
    get_smart_hybrid_guess (fun _ => 0) [entryHi, entryLo] [entryLo, entryHi] 2
        cfgRiskTol (fun _ => 0) 21 3 = some entryLo := by
  refine ⟨by decide, by decide, by decide, by decide, ?_⟩
  rw [guess_all_fail_result (fun _ => 0) [entryHi, entryLo] [entryLo, entryHi]
    2 cfgRiskTol (fun _ => 0) 21 3 (by decide) (by decide) (by decide)
    (by decide) (by decide)]
  rw [if_pos ?hcond]
  case hcond =>
    refine ⟨by norm_num [cfgRiskTol, cfgBasic], by norm_num, ?_⟩
    show entryHi.entropy - entryLo.entropy < cfgRiskTol.rank_priority_tolerance
    norm_num [entryHi, entryLo, cfgRiskTol, cfgBasic]
  rfl

/-- CLAIM C2 witness: the amended theorem applied at a concrete input where
the single candidate fails the risk filter, so the fallback fires. -/
theorem guess_none_only_when_empty_witness :
    (0 < 1) ∧
    (∀ e ∈ ([entrySPEED] : List dictionary_entry_t).take 1,
      main_loop_pass cfgRisk (fun _ => 0) 21 3 (decide ((21 : ℤ) ≤ 20)) e
        = false) ∧
    (get_smart_hybrid_guess (fun _ => 0) [entrySPEED] [entrySPEED] 1 cfgRisk
      (fun _ => 0) 21 3).isSome = true ∧
    get_smart_hybrid_guess (fun _ => 0) [entrySPEED] [entrySPEED] 1 cfgRisk
        (fun _ => 0) 21 3
      = if 0 < cfgRisk.rank_priority_tolerance ∧ ¬ ((21 : ℤ) ≤ 20)
            ∧ ((([entrySPEED] : List dictionary_entry_t).take 1).headD
                dummy_entry).entropy
              - ((([entrySPEED] : List dictionary_entry_t).take 1).headD
                dummy_entry).entropy
              < cfgRisk.rank_priority_tolerance
        then some ((([entrySPEED] : List dictionary_entry_t).take 1).headD
          dummy_entry)
        else some ((([entrySPEED] : List dictionary_entry_t).take 1).headD
          dummy_entry) :=
  ⟨by decide, by decide,
    (guess_none_only_when_empty (fun _ => 0) [entrySPEED] [entrySPEED] 1
      cfgRisk (fun _ => 0) 21 3).2.1 (by decide) (by decide) (by decide),
    (guess_none_only_when_empty (fun _ => 0) [entrySPEED] [entrySPEED] 1
      cfgRisk (fun _ => 0) 21 3).2.2 (by decide) (by decide) (by decide)
      (by decide) (by decide)⟩

end WordleChampion

